import Mathlib

/-!
Verification of the audio signal-processing core (FFT engine, window
generation, dB conversion and the STFT spectrogram pipeline) of the
repository. Sources embedded:
  - utils/maths (max, isPowerOfTwo, P2FFT, NP2FFT, FFT facade)
  - utils/audio (generalized cosine windows, window_function,
    the dB conversion helper, padReflect, spectrogram)
Buffers of IEEE doubles are idealized as functions into the reals; machine
arrays are lists or integer-indexed functions; JavaScript out-of-bounds
reads (undefined, propagating as NaN) are modelled with Option, where none
stands for NaN.
-/

noncomputable section

/-! ## Generic helpers for the shallow embedding -/

/-- Pointwise update of an integer-indexed buffer: one array store. -/
def upd (s : ℤ → ℝ) (i : ℤ) (v : ℝ) : ℤ → ℝ :=
  fun j => if j = i then v else s j

/-- A counted loop, applying the body at indices 0, 1, ..., n-1 in order
(the body at n-1 is applied last, outermost). -/
def iterUp {σ : Type*} (f : ℕ → σ → σ) : ℕ → σ → σ
  | 0, s => s
  | n + 1, s => f n (iterUp f n s)

/-! ## utils/maths: small helpers -/

/-- From maths isPowerOfTwo: the number is positive and has one bit set. -/
def isPowerOfTwo (n : ℕ) : Bool :=
  decide (0 < n) && decide (n &&& (n - 1) = 0)

/-- The scan of maths max over a nonempty list: start from the head, replace
the accumulator whenever a strictly larger element appears. -/
def foldMax (x : ℝ) (xs : List ℝ) : ℝ :=
  xs.foldl (fun acc y => if acc < y then y else acc) x

/-- From maths max: the value of the maximum element; an empty array throws. -/
def mathsMax : List ℝ → Except String ℝ
  | [] => .error "Array must not be empty"
  | x :: xs => .ok (foldMax x xs)

/-! ## utils/audio: dB conversion -/

/-- The elementwise pass of the dB conversion helper, exactly as the source
line computes it: the clamped reference is turned into logReference once, and
each element x becomes factor * log10(max(min_value, x) - logReference).
Note the subtraction happens inside the log10 argument. -/
def dbMapped (l : List ℝ) (factor reference min_value : ℝ) : List ℝ :=
  let logReference := Real.logb 10 (max min_value reference)
  l.map (fun x => factor * Real.logb 10 (max min_value x - logReference))

/-- From audio _db_conversion_helper: validates reference and min_value,
applies the elementwise dB pass, then clips from below at
max(result) - db_range when a db_range is given. -/
def dbConversionHelper (l : List ℝ) (factor reference min_value : ℝ)
    (db_range : Option ℝ) : Except String (List ℝ) :=
  if reference ≤ 0 then .error "reference must be greater than zero"
  else if min_value ≤ 0 then .error "min_value must be greater than zero"
  else
    let mapped := dbMapped l factor reference min_value
    match db_range with
    | none => .ok mapped
    | some d =>
      if d ≤ 0 then .error "db_range must be greater than zero"
      else
        match mathsMax mapped with
        | .error e => .error e
        | .ok m => .ok (mapped.map (fun x => max x (m - d)))

/-- From audio amplitude_to_db: the dB helper with factor 20. -/
def amplitude_to_db (l : List ℝ) (reference min_value : ℝ)
    (db_range : Option ℝ) : Except String (List ℝ) :=
  dbConversionHelper l 20 reference min_value db_range

/-- From audio power_to_db: the dB helper with factor 10. -/
def power_to_db (l : List ℝ) (reference min_value : ℝ)
    (db_range : Option ℝ) : Except String (List ℝ) :=
  dbConversionHelper l 10 reference min_value db_range

/-- A JavaScript double restricted to what the dB conversion path can
produce from finite inputs: a finite number, an infinity, or NaN.  The
real-valued dbMapped above is exact only while every log10 argument stays
positive; this type lets the NaN and -Infinity the source produces on a
nonpositive argument be tracked faithfully. -/
inductive JsNum : Type
  | num (x : ℝ)
  | posInf
  | negInf
  | nan

/-- JavaScript Math.log10 on a finite argument: finite for positive input,
-Infinity at zero, NaN for negative input. -/
def jsLog10 (y : ℝ) : JsNum :=
  if 0 < y then .num (Real.logb 10 y)
  else if y = 0 then .negInf
  else .nan

/-- Multiplying by the finite factor, as in the source's
factor * Math.log10(...): NaN is contagious, a positive factor keeps an
infinity, a negative factor flips it, and 0 * Infinity is NaN. -/
def jsScale (factor : ℝ) : JsNum → JsNum
  | .num x => .num (factor * x)
  | .posInf =>
    if 0 < factor then .posInf else if factor = 0 then .nan else .negInf
  | .negInf =>
    if 0 < factor then .negInf else if factor = 0 then .nan else .posInf
  | .nan => .nan

/-- The JavaScript > comparison on doubles: false whenever NaN is involved,
otherwise the numeric order with the infinities at the ends. -/
def jsGt : JsNum → JsNum → Bool
  | .nan, _ => false
  | _, .nan => false
  | .posInf, .posInf => false
  | .posInf, _ => true
  | _, .posInf => false
  | .negInf, _ => false
  | .num _, .negInf => true
  | .num a, .num b => decide (b < a)

/-- The scan of maths max over JsNum values, with the source's arr[i] > max
comparison under JavaScript semantics: a NaN candidate never replaces the
accumulator, and a NaN accumulator is never replaced. -/
def foldMaxJs (x : JsNum) (xs : List JsNum) : JsNum :=
  xs.foldl (fun acc y => if jsGt y acc then y else acc) x

/-- maths max over JsNum values; an empty array throws. -/
def mathsMaxJs : List JsNum → Except String JsNum
  | [] => .error "Array must not be empty"
  | x :: xs => .ok (foldMaxJs x xs)

/-- Subtracting the finite db_range from the computed maximum, as in
maxValue = max(spectrogram)[0] - db_range. -/
def jsSubFin : JsNum → ℝ → JsNum
  | .num x, r => .num (x - r)
  | .posInf, _ => .posInf
  | .negInf, _ => .negInf
  | .nan, _ => .nan

/-- JavaScript Math.max of two values: NaN if either argument is NaN,
otherwise the larger with the usual infinity ordering. -/
def jsMax2 : JsNum → JsNum → JsNum
  | .nan, _ => .nan
  | _, .nan => .nan
  | .posInf, _ => .posInf
  | _, .posInf => .posInf
  | .negInf, y => y
  | x, .negInf => x
  | .num a, .num b => .num (max a b)

/-- The elementwise dB pass with JavaScript number semantics: the source
line factor * Math.log10(Math.max(min_value, x) - logReference) produces
NaN when the log10 argument is negative and -Infinity when it is zero. -/
def dbMappedJs (l : List ℝ) (factor reference min_value : ℝ) : List JsNum :=
  let logReference := Real.logb 10 (max min_value reference)
  l.map (fun x => jsScale factor (jsLog10 (max min_value x - logReference)))

/-- From audio _db_conversion_helper, with JavaScript number semantics for
the converted values: validation, the elementwise pass, then the db_range
clip Math.max(value, max(converted) - db_range). -/
def dbConversionHelperJs (l : List ℝ) (factor reference min_value : ℝ)
    (db_range : Option ℝ) : Except String (List JsNum) :=
  if reference ≤ 0 then .error "reference must be greater than zero"
  else if min_value ≤ 0 then .error "min_value must be greater than zero"
  else
    let mapped := dbMappedJs l factor reference min_value
    match db_range with
    | none => .ok mapped
    | some d =>
      if d ≤ 0 then .error "db_range must be greater than zero"
      else
        match mathsMaxJs mapped with
        | .error e => .error e
        | .ok m => .ok (mapped.map (fun x => jsMax2 x (jsSubFin m d)))

/-! ## utils/audio: windows -/

/-- From audio generalized_cosine_window. The length is an integer as in the
source (a JavaScript number): below 1 the window is empty, at 1 it is [1],
otherwise entry i is a0 - (1 - a0) * cos(2 pi i / (M - 1)). -/
def generalized_cosine_window (M : ℤ) (a0 : ℝ) : List ℝ :=
  if M < 1 then []
  else if M = 1 then [1]
  else
    List.ofFn (fun i : Fin M.toNat =>
      a0 - (1 - a0) * Real.cos (i * (2 * Real.pi / ((M : ℝ) - 1))))

/-- From audio hanning. -/
def hanning (M : ℤ) : List ℝ := generalized_cosine_window M 0.5

/-- From audio hamming. -/
def hamming (M : ℤ) : List ℝ := generalized_cosine_window M 0.54

/-- From audio window_function. The length is an integer; constructing a
typed array of negative length (the boxcar branch) is a RangeError, modelled
as an error value. subarray(0, window_length) is a clamped take. The final
frame_length check returns the window unchanged when it passes. -/
def window_function (window_length : ℤ) (name : String) (periodic : Bool)
    (frame_length : Option ℤ) : Except String (List ℝ) :=
  let length := if periodic then window_length + 1 else window_length
  (match name with
    | "boxcar" =>
      if length < 0 then Except.error "Invalid typed array length"
      else Except.ok (List.replicate length.toNat (1.0 : ℝ))
    | "hann" => Except.ok (hanning length)
    | "hann_window" => Except.ok (hanning length)
    | "hamming" => Except.ok (hamming length)
    | "povey" => Except.ok ((hanning length).map (fun x => x ^ (0.85 : ℝ)))
    | _ => Except.error ("Unknown window type " ++ name ++ ".")).bind
    (fun w0 =>
      let w1 := if periodic then w0.take window_length.toNat else w0
      match frame_length with
      | none => Except.ok w1
      | some fl =>
        if fl < window_length then
          Except.error "Length of the window may not be larger than frame_length"
        else Except.ok w1)

/-! ## utils/maths: P2FFT (power-of-two radix-4 FFT)

The complex buffer is a function from integer indices to reals (interleaved
real and imaginary parts). Loops become iterUp folds over the state, one
store at a time; the JavaScript bitwise operations of the bit-reversal
table, including shifts by a negative count (taken modulo 32) and 32-bit
wrapping, are modelled exactly. -/

/-- Wrap an integer to the signed 32-bit range, as JavaScript ToInt32. -/
def toInt32 (x : ℤ) : ℤ := (x + 2 ^ 31) % 2 ^ 32 - 2 ^ 31

/-- JavaScript x << n: the shift count is reduced modulo 32 (so -1 shifts by
31), and the result wraps to 32 bits. -/
def jsShl (x : ℤ) (n : ℤ) : ℤ := toInt32 (x * 2 ^ (n % 32).toNat)

/-- JavaScript x >>> n for a small nonnegative count: x is first brought
into the unsigned 32-bit range. -/
def jsShrU32 (x : ℤ) (n : ℕ) : ℤ := (x % 2 ^ 32) / 2 ^ n

/-- JavaScript bitwise or of two 32-bit integers. -/
def i32or (a b : ℤ) : ℤ := toInt32 (Int.lor (a % 2 ^ 32) (b % 2 ^ 32))

/-- From the P2FFT constructor: power counts the doublings of 1 needed to
reach the size, which is the ceiling base-2 logarithm. -/
def p2power (size : ℕ) : ℕ := Nat.clog 2 size

/-- From the P2FFT constructor: the initial step width, one less when the
power of two is even. -/
def p2width (size : ℕ) : ℕ :=
  if p2power size % 2 = 0 then p2power size - 1 else p2power size

/-- From the P2FFT constructor: entry j of the bit-reversal table,
accumulated two bits at a time with 32-bit JavaScript semantics. -/
def bitrevEntry (width : ℕ) (j : ℕ) : ℤ :=
  iterUp
    (fun m acc =>
      i32or acc (jsShl (((j / 2 ^ (2 * m)) % 4 : ℕ) : ℤ)
        ((width : ℤ) - 2 * m - 2)))
    ((width + 1) / 2) 0

/-- From the P2FFT constructor: the twiddle table, cos at even entries and
minus sin at odd entries of the angle pi * i / size. -/
def p2table (size : ℕ) (i : ℕ) : ℝ :=
  if i % 2 = 0 then Real.cos (Real.pi * i / size)
  else -Real.sin (Real.pi * (i - 1) / size)

/-- From P2FFT singleRealTransform2: the initial radix-2 block on real
input, four stores. -/
def singleRealTransform2 (data : ℤ → ℝ) (outOff off step : ℤ)
    (s : ℤ → ℝ) : ℤ → ℝ :=
  let evenR := data off
  let oddR := data (off + step)
  upd (upd (upd (upd s outOff (evenR + oddR)) (outOff + 1) 0)
    (outOff + 2) (evenR - oddR)) (outOff + 3) 0

/-- From P2FFT singleRealTransform4: the initial radix-4 block on real
input, eight stores. -/
def singleRealTransform4 (data : ℤ → ℝ) (inv : ℝ) (outOff off step : ℤ)
    (s : ℤ → ℝ) : ℤ → ℝ :=
  let Ar := data off
  let Br := data (off + step)
  let Cr := data (off + step * 2)
  let Dr := data (off + step * 3)
  let T0r := Ar + Cr
  let T1r := Ar - Cr
  let T2r := Br + Dr
  let T3r := inv * (Br - Dr)
  upd (upd (upd (upd (upd (upd (upd (upd s
    outOff (T0r + T2r)) (outOff + 1) 0)
    (outOff + 2) T1r) (outOff + 3) (-T3r))
    (outOff + 4) (T0r - T2r)) (outOff + 5) 0)
    (outOff + 6) T1r) (outOff + 7) T3r

/-- From P2FFT realTransform4: the initial pass over all blocks.  When the
block length is 4 the radix-2 kernel runs, otherwise the radix-4 kernel;
the bit-reversed offset and the step are halved with an unsigned shift. -/
def rtInitialPass (size csize : ℕ) (data : ℤ → ℝ) (inv : ℝ)
    (s : ℤ → ℝ) : ℤ → ℝ :=
  let width := p2width size
  let step : ℕ := 2 ^ width
  let len : ℕ := csize / step * 2
  if len = 4 then
    iterUp
      (fun t => singleRealTransform2 data ((4 : ℤ) * t)
        (jsShrU32 (bitrevEntry width t) 1) ((step / 2 : ℕ) : ℤ))
      (csize / 4) s
  else
    iterUp
      (fun t => singleRealTransform4 data inv ((8 : ℤ) * t)
        (jsShrU32 (bitrevEntry width t) 1) ((step / 2 : ℕ) : ℤ))
      (csize / 8) s

/-- From P2FFT realTransform4: one butterfly of a merging stage, at block
offset outOff and loop counter m (the source loop variables are i = 2m and
k = step * m).  Reads happen before all stores.  At m = 0 the block head
and the middle point are written and the mirrored stores are skipped, at
i = hquarterLen only the first two complex stores happen, otherwise the
mirrored entries SA and SB are also written. -/
def rtButterfly (table : ℕ → ℝ) (inv : ℝ) (len : ℕ) (outOff : ℤ)
    (step : ℕ) (m : ℕ) (s : ℤ → ℝ) : ℤ → ℝ :=
  let qL : ℤ := ((len / 4 : ℕ) : ℤ)
  let hq : ℕ := len / 8
  let i : ℤ := 2 * m
  let k : ℕ := step * m
  let A := outOff + i
  let B := A + qL
  let C := B + qL
  let D := C + qL
  let Ar := s A
  let Ai := s (A + 1)
  let Br := s B
  let Bi := s (B + 1)
  let Cr := s C
  let Ci := s (C + 1)
  let Dr := s D
  let Di := s (D + 1)
  let MAr := Ar
  let MAi := Ai
  let tableBr := table k
  let tableBi := inv * table (k + 1)
  let MBr := Br * tableBr - Bi * tableBi
  let MBi := Br * tableBi + Bi * tableBr
  let tableCr := table (2 * k)
  let tableCi := inv * table (2 * k + 1)
  let MCr := Cr * tableCr - Ci * tableCi
  let MCi := Cr * tableCi + Ci * tableCr
  let tableDr := table (3 * k)
  let tableDi := inv * table (3 * k + 1)
  let MDr := Dr * tableDr - Di * tableDi
  let MDi := Dr * tableDi + Di * tableDr
  let T0r := MAr + MCr
  let T0i := MAi + MCi
  let T1r := MAr - MCr
  let T1i := MAi - MCi
  let T2r := MBr + MDr
  let T2i := MBi + MDi
  let T3r := inv * (MBr - MDr)
  let T3i := inv * (MBi - MDi)
  let s4 := upd (upd (upd (upd s A (T0r + T2r)) (A + 1) (T0i + T2i))
    B (T1r + T3i)) (B + 1) (T1i - T3r)
  if m = 0 then upd (upd s4 C (T0r - T2r)) (C + 1) (T0i - T2i)
  else if 2 * m = hq then s4
  else
    let SA := outOff + qL - i
    let SB := outOff + 2 * qL - i
    upd (upd (upd (upd s4 SA (T1r - inv * T3i)) (SA + 1) (-T1i - inv * T3r))
      SB (T0r - inv * T2r)) (SB + 1) (-T0i + inv * T2i)

/-- From P2FFT realTransform4: one merging stage, all blocks.  The inner
loop runs i = 0, 2, ..., hquarterLen inclusive, hence len / 16 + 1
iterations per block. -/
def rtStage (csize : ℕ) (table : ℕ → ℝ) (inv : ℝ) (step : ℕ)
    (s : ℤ → ℝ) : ℤ → ℝ :=
  let len := csize / step * 2
  iterUp
    (fun t => iterUp (rtButterfly table inv len ((len : ℕ) * (t : ℕ) : ℕ) step)
      (len / 16 + 1))
    (csize / len) s

/-- From P2FFT realTransform4: the stage loop, step starting at the initial
step shifted right twice and divided by four until it drops below 2. -/
def rtStageLoop (csize : ℕ) (table : ℕ → ℝ) (inv : ℝ) :
    ℕ → (ℤ → ℝ) → (ℤ → ℝ)
  | step, s =>
    if h : 2 ≤ step then
      rtStageLoop csize table inv (step / 4) (rtStage csize table inv step s)
    else s
  termination_by step => step
  decreasing_by omega

/-- From P2FFT realTransform4: the final pass completing the spectrum by
mirrored conjugate entries, for i = 2, 4, ..., below half the buffer. -/
def rtMirror (csize : ℕ) (s : ℤ → ℝ) : ℤ → ℝ :=
  iterUp
    (fun m s0 =>
      let i : ℤ := 2 * (m + 1)
      upd (upd s0 ((csize : ℤ) - i) (s0 i)) ((csize : ℤ) - i + 1) (-s0 (i + 1)))
    (csize / 4 - 1) s

/-- From P2FFT realTransform4, assembled: initial pass, merging stages,
mirror completion. -/
def p2RealTransformRaw (size : ℕ) (out0 data : ℤ → ℝ) (inv : ℝ) : ℤ → ℝ :=
  rtMirror (2 * size)
    (rtStageLoop (2 * size) (p2table size) inv (2 ^ p2width size / 4)
      (rtInitialPass size (2 * size) data inv out0))

/-- From P2FFT singleTransform2: the initial radix-2 block on complex
input. -/
def singleTransform2 (data : ℤ → ℝ) (outOff off step : ℤ)
    (s : ℤ → ℝ) : ℤ → ℝ :=
  let evenR := data off
  let evenI := data (off + 1)
  let oddR := data (off + step)
  let oddI := data (off + step + 1)
  upd (upd (upd (upd s outOff (evenR + oddR)) (outOff + 1) (evenI + oddI))
    (outOff + 2) (evenR - oddR)) (outOff + 3) (evenI - oddI)

/-- From P2FFT singleTransform4: the initial radix-4 block on complex
input. -/
def singleTransform4 (data : ℤ → ℝ) (inv : ℝ) (outOff off step : ℤ)
    (s : ℤ → ℝ) : ℤ → ℝ :=
  let Ar := data off
  let Ai := data (off + 1)
  let Br := data (off + step)
  let Bi := data (off + step + 1)
  let Cr := data (off + step * 2)
  let Ci := data (off + step * 2 + 1)
  let Dr := data (off + step * 3)
  let Di := data (off + step * 3 + 1)
  let T0r := Ar + Cr
  let T0i := Ai + Ci
  let T1r := Ar - Cr
  let T1i := Ai - Ci
  let T2r := Br + Dr
  let T2i := Bi + Di
  let T3r := inv * (Br - Dr)
  let T3i := inv * (Bi - Di)
  upd (upd (upd (upd (upd (upd (upd (upd s
    outOff (T0r + T2r)) (outOff + 1) (T0i + T2i))
    (outOff + 2) (T1r + T3i)) (outOff + 3) (T1i - T3r))
    (outOff + 4) (T0r - T2r)) (outOff + 5) (T0i - T2i))
    (outOff + 6) (T1r - T3i)) (outOff + 7) (T1i + T3r)

/-- From P2FFT transform4: the initial pass on complex input; the
bit-reversed offset and the step are used unhalved. -/
def ctInitialPass (size csize : ℕ) (data : ℤ → ℝ) (inv : ℝ)
    (s : ℤ → ℝ) : ℤ → ℝ :=
  let width := p2width size
  let step : ℕ := 2 ^ width
  let len : ℕ := csize / step * 2
  if len = 4 then
    iterUp
      (fun t => singleTransform2 data ((4 : ℤ) * t) (bitrevEntry width t)
        (step : ℤ))
      (csize / 4) s
  else
    iterUp
      (fun t => singleTransform4 data inv ((8 : ℤ) * t) (bitrevEntry width t)
        (step : ℤ))
      (csize / 8) s

/-- From P2FFT transform4: one butterfly of a complex merging stage; the
loop runs while i < quarterLen - 1, hence len / 8 iterations per block. -/
def ctButterfly (table : ℕ → ℝ) (inv : ℝ) (len : ℕ) (outOff : ℤ)
    (step : ℕ) (m : ℕ) (s : ℤ → ℝ) : ℤ → ℝ :=
  let qL : ℤ := ((len / 4 : ℕ) : ℤ)
  let k : ℕ := step * m
  let A := outOff + 2 * m
  let B := A + qL
  let C := B + qL
  let D := C + qL
  let Ar := s A
  let Ai := s (A + 1)
  let Br := s B
  let Bi := s (B + 1)
  let Cr := s C
  let Ci := s (C + 1)
  let Dr := s D
  let Di := s (D + 1)
  let tableBr := table k
  let tableBi := inv * table (k + 1)
  let MBr := Br * tableBr - Bi * tableBi
  let MBi := Br * tableBi + Bi * tableBr
  let tableCr := table (2 * k)
  let tableCi := inv * table (2 * k + 1)
  let MCr := Cr * tableCr - Ci * tableCi
  let MCi := Cr * tableCi + Ci * tableCr
  let tableDr := table (3 * k)
  let tableDi := inv * table (3 * k + 1)
  let MDr := Dr * tableDr - Di * tableDi
  let MDi := Dr * tableDi + Di * tableDr
  let T0r := Ar + MCr
  let T0i := Ai + MCi
  let T1r := Ar - MCr
  let T1i := Ai - MCi
  let T2r := MBr + MDr
  let T2i := MBi + MDi
  let T3r := inv * (MBr - MDr)
  let T3i := inv * (MBi - MDi)
  upd (upd (upd (upd (upd (upd (upd (upd s
    A (T0r + T2r)) (A + 1) (T0i + T2i))
    B (T1r + T3i)) (B + 1) (T1i - T3r))
    C (T0r - T2r)) (C + 1) (T0i - T2i))
    D (T1r - T3i)) (D + 1) (T1i + T3r)

/-- From P2FFT transform4: one complex merging stage over all blocks. -/
def ctStage (csize : ℕ) (table : ℕ → ℝ) (inv : ℝ) (step : ℕ)
    (s : ℤ → ℝ) : ℤ → ℝ :=
  let len := csize / step * 2
  iterUp
    (fun t => iterUp (ctButterfly table inv len ((len : ℕ) * (t : ℕ) : ℕ) step)
      (len / 8))
    (csize / len) s

/-- From P2FFT transform4: the complex stage loop. -/
def ctStageLoop (csize : ℕ) (table : ℕ → ℝ) (inv : ℝ) :
    ℕ → (ℤ → ℝ) → (ℤ → ℝ)
  | step, s =>
    if h : 2 ≤ step then
      ctStageLoop csize table inv (step / 4) (ctStage csize table inv step s)
    else s
  termination_by step => step
  decreasing_by omega

/-- From P2FFT transform4, assembled. -/
def p2TransformRaw (size : ℕ) (out0 data : ℤ → ℝ) (inv : ℝ) : ℤ → ℝ :=
  ctStageLoop (2 * size) (p2table size) inv (2 ^ p2width size / 4)
    (ctInitialPass size (2 * size) data inv out0)

/-- From P2FFT inverseTransform: the conjugate transform, then every entry
of the output buffer divided by the size. -/
def p2InverseRaw (size : ℕ) (out0 data : ℤ → ℝ) : ℤ → ℝ :=
  let r := p2TransformRaw size out0 data (-1)
  fun i => if 0 ≤ i ∧ i < (2 * size : ℕ) then r i / size else r i

/-- From P2FFT transform: the aliasing check (out === data, modelled by the
aliased flag), then the forward complex transform. -/
def p2transform (size : ℕ) (aliased : Bool) (out0 data : ℤ → ℝ) :
    Except String (ℤ → ℝ) :=
  if aliased then .error "Input and output buffers must be different"
  else .ok (p2TransformRaw size out0 data 1)

/-- From P2FFT realTransform: the aliasing check, then the real-input
transform. -/
def p2realTransform (size : ℕ) (aliased : Bool) (out0 data : ℤ → ℝ) :
    Except String (ℤ → ℝ) :=
  if aliased then .error "Input and output buffers must be different"
  else .ok (p2RealTransformRaw size out0 data 1)

/-! ## utils/maths: NP2FFT (Bluestein chirp-z transform) -/

/-- From the NP2FFT constructor: a = 2 * (fft_length - 1). -/
def np2a (N : ℕ) : ℕ := 2 * (N - 1)

/-- From the NP2FFT constructor: b = 2 * (2 * fft_length - 1), the length
of the chirp buffer. -/
def np2b (N : ℕ) : ℕ := 2 * (2 * N - 1)

/-- From the NP2FFT constructor: the next power of two at least b (the
exact value of 2 ** ceil(log2 b)), the size of every internal buffer. -/
def nextP2 (N : ℕ) : ℕ := 2 ^ Nat.clog 2 (np2b N)

/-- From the NP2FFT constructor: theta = -2 pi / fft_length. -/
def np2theta (N : ℕ) : ℝ := -2 * Real.pi / N

/-- From the NP2FFT constructor: entry idx of the chirp buffer.  For the
pair at i = idx / 2 the complex power is computed through modulus and
argument (atan2 is the argument of the complex point) and converted back to
rectangular form: cos at even entries, sin at odd ones. -/
def chirpVal (N : ℕ) (idx : ℕ) : ℝ :=
  let i := idx / 2
  let baseR := Real.cos (np2theta N)
  let baseI := Real.sin (np2theta N)
  let e : ℝ := ((i : ℝ) + 1 - N) ^ 2 / 2
  let result_mod := Real.sqrt (baseR ^ 2 + baseI ^ 2) ^ e
  let result_arg := e * Complex.arg ⟨baseR, baseI⟩
  if idx % 2 = 0 then result_mod * Real.cos result_arg
  else result_mod * Real.sin result_arg

/-- A read of the sliced chirp buffer, the subarray view of the chirp from
a to b: its length is b - a, and a read beyond it is undefined (none). -/
def sbRead (N : ℕ) (j : ℕ) : Option ℝ :=
  if j < np2b N - np2a N then some (chirpVal N (np2a N + j)) else none

/-- From the NP2FFT constructor: the inverse chirp buffer of length
nextP2, the conjugate of the chirp on the first b entries and zero
beyond. -/
def ichirpFun (N : ℕ) : ℤ → ℝ := fun z =>
  if 0 ≤ z ∧ z < (np2b N : ℤ) then
    if z % 2 = 0 then chirpVal N z.toNat else -chirpVal N z.toNat
  else 0

/-- From the NP2FFT constructor: the chirp buffer in the frequency domain,
the inner forward FFT of the inverse chirp into a zeroed buffer. -/
def np2ChirpBuffer (N : ℕ) : ℤ → ℝ :=
  p2TransformRaw (nextP2 N / 2) (fun _ => 0) (ichirpFun N) 1

/-- From NP2FFT transform: buffer1, the input multiplied pointwise by the
sliced chirp (real or complex multiplication), zero beyond the sliced
chirp length since the buffer is zero-initialized and never written
there. -/
def np2buffer1 (N : ℕ) (real : Bool) (input : ℤ → ℝ) : ℤ → ℝ := fun z =>
  if 0 ≤ z ∧ z < ((np2b N - np2a N : ℕ) : ℤ) then
    if real then input (z / 2) * chirpVal N (np2a N + z.toNat)
    else if z % 2 = 0 then
      input z * chirpVal N (np2a N + z.toNat)
        - input (z + 1) * chirpVal N (np2a N + z.toNat + 1)
    else
      input (z - 1) * chirpVal N (np2a N + z.toNat)
        + input z * chirpVal N (np2a N + z.toNat - 1)
  else 0

/-- From NP2FFT transform: the inner forward FFT of buffer1. -/
def np2outBuffer1 (N : ℕ) (real : Bool) (input : ℤ → ℝ) : ℤ → ℝ :=
  p2TransformRaw (nextP2 N / 2) (fun _ => 0) (np2buffer1 N real input) 1

/-- From NP2FFT transform: buffer2, the pointwise complex product with the
frequency-domain chirp buffer. -/
def np2buffer2 (N : ℕ) (real : Bool) (input : ℤ → ℝ) : ℤ → ℝ := fun z =>
  let ob2 := np2outBuffer1 N real input
  let cb := np2ChirpBuffer N
  if z % 2 = 0 then ob2 z * cb z - ob2 (z + 1) * cb (z + 1)
  else ob2 (z - 1) * cb z + ob2 z * cb (z - 1)

/-- From NP2FFT transform: the inner inverse FFT of buffer2. -/
def np2outBuffer2 (N : ℕ) (real : Bool) (input : ℤ → ℝ) : ℤ → ℝ :=
  p2InverseRaw (nextP2 N / 2) (fun _ => 0) (np2buffer2 N real input)

/-- A read of outBuffer2, a Float64Array of length nextP2: a read beyond
it is undefined (none). -/
def obRead (N : ℕ) (real : Bool) (input : ℤ → ℝ) (j : ℤ) : Option ℝ :=
  if 0 ≤ j ∧ j < (nextP2 N : ℤ) then some (np2outBuffer2 N real input j)
  else none

/-- Multiplication over JavaScript values where none is NaN or undefined:
any undefined operand poisons the result. -/
def nmul : Option ℝ → Option ℝ → Option ℝ
  | some a, some b => some (a * b)
  | _, _ => none

/-- Addition with NaN propagation. -/
def nadd : Option ℝ → Option ℝ → Option ℝ
  | some a, some b => some (a + b)
  | _, _ => none

/-- Subtraction with NaN propagation. -/
def nsub : Option ℝ → Option ℝ → Option ℝ
  | some a, some b => some (a - b)
  | _, _ => none

/-- From NP2FFT transform, the final output loop: it runs over the whole
outBuffer2 (length nextP2), reading outBuffer2 at j + a and the sliced
chirp at j -- reads that go out of bounds when j is large -- and writes the
complex product.  Entry j of the output buffer, for either parity. -/
def np2Output (N : ℕ) (real : Bool) (input : ℤ → ℝ) (j : ℕ) : Option ℝ :=
  let a := np2a N
  if j % 2 = 0 then
    nsub (nmul (obRead N real input (j + a)) (sbRead N j))
      (nmul (obRead N real input (j + a + 1)) (sbRead N (j + 1)))
  else
    nadd (nmul (obRead N real input (j - 1 + a)) (sbRead N j))
      (nmul (obRead N real input (j + a)) (sbRead N (j - 1)))

/-- From NP2FFT transform: no aliasing check is performed (the aliased
flag is ignored); the call always completes. -/
def np2transform (N : ℕ) (aliased : Bool) (input : ℤ → ℝ) :
    Except String (ℕ → Option ℝ) :=
  .ok (np2Output N false input)

/-- From NP2FFT realTransform: same, with the real multiplication. -/
def np2realTransform (N : ℕ) (aliased : Bool) (input : ℤ → ℝ) :
    Except String (ℕ → Option ℝ) :=
  .ok (np2Output N true input)

/-! ## utils/maths: FFT facade -/

/-- From the FFT facade constructor: the output buffer size, 2N on the
power-of-two path and the convolution buffer size otherwise. -/
def fftOutputBufferSize (n : ℕ) : ℕ :=
  if isPowerOfTwo n then 2 * n else nextP2 n

/-- From FFT transform: dispatch on whether the length is a power of two.
On the power-of-two path the output is the written buffer of length 2n
(reads beyond it are undefined). -/
def fftTransform (n : ℕ) (aliased : Bool) (out0 input : ℤ → ℝ) :
    Except String (ℕ → Option ℝ) :=
  if isPowerOfTwo n then
    (p2transform n aliased out0 input).map
      (fun s => fun j => if j < 2 * n then some (s j) else none)
  else np2transform n aliased input

/-- From FFT realTransform: same dispatch for the real-input transform. -/
def fftRealTransform (n : ℕ) (aliased : Bool) (out0 input : ℤ → ℝ) :
    Except String (ℕ → Option ℝ) :=
  if isPowerOfTwo n then
    (p2realTransform n aliased out0 input).map
      (fun s => fun j => if j < 2 * n then some (s j) else none)
  else np2realTransform n aliased input

/-- The facade real transform without the aliasing wrapper, as the
spectrogram calls it on two distinct preallocated buffers. -/
def fftRealTransformRaw (n : ℕ) (out0 input : ℤ → ℝ) : ℕ → Option ℝ :=
  if isPowerOfTwo n then
    fun j => if j < 2 * n then some (p2RealTransformRaw n out0 input 1 j) else none
  else np2Output n true input

/-! ## utils/audio: the spectrogram pipeline

The Tensor type and its matmul come from utils/tensor, and
calculateReflectOffset from utils/core; neither file is part of the staged
sources, so those three definitions are modelled from the spec.  Everything
else is translated from the spectrogram function of utils/audio, with the
per-frame loops expressed pointwise (each buffer cell is written at most
once per pass). -/

/-- Modelled from the spec: utils/core calculateReflectOffset, the mirrored
index for reflect padding, without repeating the edge sample.  The
JavaScript remainder keeps the sign of the dividend. -/
def calculateReflectOffset (i : ℤ) (w : ℤ) : ℤ :=
  |Int.tmod (i + w) (2 * w) - w|

/-- From audio padReflect: the array with left and right reflected pads.
The three regions are the left pad (positions left - i), the copy, and the
right pad (positions w + left + i reading the offset of w - i). -/
def padReflect (array : List ℝ) (left right : ℕ) : List ℝ :=
  let w : ℤ := (array.length : ℤ) - 1
  List.ofFn (fun k : Fin (array.length + left + right) =>
    if (k : ℕ) < left then
      array.getD (calculateReflectOffset (((left - (k : ℕ) : ℕ) : ℤ)) w).toNat 0
    else if (k : ℕ) < left + array.length then
      array.getD ((k : ℕ) - left) 0
    else
      array.getD (calculateReflectOffset (w - ((k : ℕ) - left - w)) w).toNat 0)

/-- From the spectrogram function: the frame count,
floor(1 + floor((length - frame_length) / hop_length)), with the real
(double) arithmetic of JavaScript carried out over the rationals. -/
def specNumFrames (len frame hop : ℕ) : ℤ :=
  ⌊(1 : ℚ) + ((⌊((len : ℚ) - (frame : ℚ)) / (hop : ℚ)⌋ : ℤ) : ℚ)⌋

/-- From the spectrogram function: the clamp up to min_num_frames. -/
def specClampMin (nf : ℤ) (minNF : Option ℕ) : ℤ :=
  match minNF with
  | some m => if nf < (m : ℤ) then (m : ℤ) else nf
  | none => nf

/-- From the spectrogram function: (d1, d1Max).  With max_num_frames given,
a short input keeps d1 and pads d1Max up to it when do_pad, and a long
input truncates both. -/
def specD1 (nf : ℤ) (maxNF : Option ℕ) (do_pad : Bool) : ℤ × ℤ :=
  match maxNF with
  | none => (nf, nf)
  | some M =>
    if nf < (M : ℤ) then (if do_pad then (nf, (M : ℤ)) else (nf, nf))
    else ((M : ℤ), (M : ℤ))

/-- From the spectrogram function: the number of frequency bins. -/
def specBins (fftl : ℕ) (onesided : Bool) : ℕ :=
  if onesided then fftl / 2 + 1 else fftl

/-- From the spectrogram function: the waveform after optional reflect
padding by floor((fft_length - 1) / 2) + 1 on each side. -/
def specWaveform (waveform : List ℝ) (fftl : ℕ) (center : Bool) : List ℝ :=
  if center then padReflect waveform ((fftl - 1) / 2 + 1) ((fftl - 1) / 2 + 1)
  else waveform

/-- From the frame loop: buffer_size = min(waveform.length - offset,
frame_length), truncated at zero as the copy loop runs no iteration when
the offset passes the end. -/
def frameBufferSize (wvLen frame hop i : ℕ) : ℕ :=
  min (wvLen - i * hop) frame

/-- From the frame loop: the input buffer right after the copy, zero from
buffer_size up (the buffer is zero-filled before a partial copy, and the
tail beyond frame_length is never written). -/
def frameBase (wv : List ℝ) (frame hop i : ℕ) : ℕ → ℝ := fun j =>
  if j < frameBufferSize wv.length frame hop i then wv.getD (i * hop + j) 0
  else 0

/-- From the frame loop: DC offset removal subtracts the mean of the first
buffer_size entries from each of them. -/
def frameDC (removeDC : Bool) (bs : ℕ) (g : ℕ → ℝ) : ℕ → ℝ :=
  if removeDC then
    fun j => if j < bs then g j - (∑ t ∈ Finset.range bs, g t) / bs else g j
  else g

/-- From the frame loop: pre-emphasis runs over indices buffer_size - 1
down to 1, so each entry reads the original previous entry, and entry 0 is
scaled by 1 - preemphasis afterwards. -/
def framePreemph (pre : Option ℝ) (bs : ℕ) (g : ℕ → ℝ) : ℕ → ℝ :=
  match pre with
  | none => g
  | some c => fun j =>
    if j = 0 then g 0 * (1 - c)
    else if j < bs then g j - c * g (j - 1)
    else g j

/-- From the frame loop: multiply elementwise by the window. -/
def frameWindowed (window : List ℝ) (g : ℕ → ℝ) : ℕ → ℝ := fun j =>
  if j < window.length then g j * window.getD j 0 else g j

/-- The FFT input buffer of frame i, as a buffer on integer indices:
processed samples below frame_length, zero elsewhere (the buffer has
length fft_length and its tail is never written). -/
def frameVec (wv window : List ℝ) (frame hop : ℕ) (removeDC : Bool)
    (pre : Option ℝ) (i : ℕ) : ℤ → ℝ := fun z =>
  if 0 ≤ z ∧ z < (frame : ℤ) then
    frameWindowed window
      (framePreemph pre (frameBufferSize wv.length frame hop i)
        (frameDC removeDC (frameBufferSize wv.length frame hop i)
          (frameBase wv frame hop i))) z.toNat
  else 0

/-- From the frame loop: the squared magnitude of bin j of frame i, read
from the facade real transform of the frame buffer. -/
def specMagRaw (wv window : List ℝ) (frame hop fftl : ℕ) (removeDC : Bool)
    (pre : Option ℝ) (j i : ℕ) : ℝ :=
  let out := fftRealTransformRaw fftl (fun _ => 0)
    (frameVec wv window frame hop removeDC pre i)
  (out (2 * j)).getD 0 ^ 2 + (out (2 * j + 1)).getD 0 ^ 2

/-- From the power pass: with power set and different from 2, every entry
of the magnitude buffer is raised to 2 / power. -/
def specMagAdj (power : Option ℚ) (x : ℝ) : ℝ :=
  match power with
  | none => x
  | some p => if p = 2 then x else x ^ ((2 : ℝ) / (p : ℝ))

/-- Entry idx of the transposed magnitude buffer of shape
(bins, d1Max), laid out bin-major: frames below d1 hold computed
magnitudes, later frames keep the zero fill; the power pass runs over the
whole buffer. -/
def specMagData (wv window : List ℝ) (frame hop fftl : ℕ) (removeDC : Bool)
    (pre : Option ℝ) (power : Option ℚ) (d1 d1Max : ℕ) (idx : ℕ) : ℝ :=
  specMagAdj power
    (if idx % d1Max < d1 then
      specMagRaw wv window frame hop fftl removeDC pre (idx / d1Max)
        (idx % d1Max)
    else 0)

/-- A dense real tensor: its dims and its row-major data. -/
structure STensor where
  dims : List ℕ
  data : List ℝ

/-- Modelled from the spec: matrix multiplication of a tensor of shape
(m, k) by one of shape (k, n), yielding shape (m, n). -/
def matmulT (A B : STensor) : STensor :=
  let m := A.dims.getD 0 0
  let k := A.dims.getD 1 0
  let n := B.dims.getD 1 0
  ⟨[m, n],
    List.ofFn (fun idx : Fin (m * n) =>
      ∑ j ∈ Finset.range k,
        A.data.getD ((idx : ℕ) / n * k + j) 0 *
          B.data.getD (j * n + (idx : ℕ) % n) 0)⟩

/-- Modelled from the spec: transposition of a 2-dimensional tensor. -/
def transposeT (t : STensor) : STensor :=
  match t.dims with
  | [a, b] =>
    ⟨[b, a], List.ofFn (fun idx : Fin (b * a) =>
      t.data.getD ((idx : ℕ) % a * b + (idx : ℕ) / a) 0)⟩
  | _ => t

/-- The named options of the spectrogram function, with the source
defaults.  Scalar configuration values compared for equality (power) are
rationals; data values are reals. -/
structure SpecOpts where
  fft_length : Option ℕ := none
  power : Option ℚ := some 1
  center : Bool := true
  pad_mode : String := "reflect"
  onesided : Bool := true
  preemphasis : Option ℝ := none
  mel_filters : Option (List (List ℝ)) := none
  mel_floor : ℝ := 1e-10
  log_mel : Option String := none
  reference : ℝ := 1
  min_value : ℝ := 1e-10
  db_range : Option ℝ := none
  remove_dc_offset : Bool := false
  min_num_frames : Option ℕ := none
  max_num_frames : Option ℕ := none
  do_pad : Bool := true
  transpose : Bool := false

/-- The magnitude tensor of shape (bins, d1Max). -/
def specMagTensor (wv window : List ℝ) (frame hop fftl : ℕ)
    (removeDC : Bool) (pre : Option ℝ) (power : Option ℚ)
    (d1 d1Max bins : ℕ) : STensor :=
  ⟨[bins, d1Max],
    List.ofFn (fun idx : Fin (bins * d1Max) =>
      specMagData wv window frame hop fftl removeDC pre power d1 d1Max idx)⟩

/-- The mel spectrogram before flooring: mel filter matrix times magnitude
matrix, optionally transposed. -/
def specMelSpec (wv window : List ℝ) (frame hop fftl : ℕ)
    (removeDC : Bool) (pre : Option ℝ) (power : Option ℚ)
    (d1 d1Max bins : ℕ) (mf : List (List ℝ)) (transpose : Bool) : STensor :=
  let spec0 := matmulT ⟨[mf.length, bins], mf.flatten⟩
    (specMagTensor wv window frame hop fftl removeDC pre power d1 d1Max bins)
  if transpose then transposeT spec0 else spec0

/-- From audio spectrogram: validation, framing, magnitudes, mel
projection, mel flooring and log scaling, in the order of the source.  The
frame counts d1 and d1Max can in principle be negative (then taken as 0,
where JavaScript would fail allocating the output buffer). -/
def spectrogram (waveform window : List ℝ) (frame_length hop_length : ℕ)
    (opts : SpecOpts) : Except String STensor :=
  let fftl := opts.fft_length.getD frame_length
  if frame_length > fftl then
    .error "frame_length may not be larger than fft_length"
  else if window.length ≠ frame_length then
    .error "Length of the window must equal frame_length"
  else if hop_length = 0 then
    .error "hop_length must be greater than zero"
  else if opts.power = none ∧ opts.mel_filters ≠ none then
    .error "Mel spectrogram computation is not yet supported for complex-valued spectrogram"
  else if opts.center = true ∧ opts.pad_mode ≠ "reflect" then
    .error "pad_mode not implemented yet"
  else
    let wv := specWaveform waveform fftl opts.center
    let nf := specClampMin (specNumFrames wv.length frame_length hop_length)
      opts.min_num_frames
    let bins := specBins fftl opts.onesided
    let dd := specD1 nf opts.max_num_frames opts.do_pad
    let d1 := dd.1.toNat
    let d1Max := dd.2.toNat
    match opts.mel_filters with
    | none => .error "mel_filters must be provided"
    | some mf =>
      let spec1 := specMelSpec wv window frame_length hop_length fftl
        opts.remove_dc_offset opts.preemphasis opts.power d1 d1Max bins mf
        opts.transpose
      let floored := spec1.data.map (fun x => max opts.mel_floor x)
      if opts.power ≠ none ∧ opts.log_mel ≠ none then
        let o := min floored.length (d1 * mf.length)
        match opts.log_mel with
        | some "log" =>
          .ok ⟨spec1.dims,
            floored.mapIdx (fun i x => if i < o then Real.log x else x)⟩
        | some "log10" =>
          .ok ⟨spec1.dims,
            floored.mapIdx (fun i x => if i < o then Real.logb 10 x else x)⟩
        | some "dB" =>
          if opts.power = some 1 then
            (amplitude_to_db floored opts.reference opts.min_value
              opts.db_range).map (fun d => ⟨spec1.dims, d⟩)
          else if opts.power = some 2 then
            (power_to_db floored opts.reference opts.min_value
              opts.db_range).map (fun d => ⟨spec1.dims, d⟩)
          else .error "Cannot use dB log_mel option with the given power"
        | _ => .error "log_mel must be one of null, log, log10 or dB"
      else .ok ⟨spec1.dims, floored⟩

end

/-! # Theorems -/

section ListMaxLemmas

/-- Every element of the scanned list is at most the running maximum. -/
theorem le_foldMax (xs : List ℝ) : ∀ (x y : ℝ), y ∈ x :: xs → y ≤ foldMax x xs := by
  induction xs with
  | nil =>
    intro x y hy
    simp only [List.mem_singleton] at hy
    simp [foldMax, hy]
  | cons z zs ih =>
    intro x y hy
    have step : foldMax x (z :: zs) = foldMax (if x < z then z else x) zs := rfl
    rw [step]
    rcases List.mem_cons.mp hy with h1 | h2
    · have hx : y ≤ (if x < z then z else x) := by
        rw [h1]
        split
        · exact le_of_lt (by assumption)
        · exact le_rfl
      exact le_trans hx (ih _ _ (List.mem_cons_self _ _))
    · rcases List.mem_cons.mp h2 with h3 | h4
      · have hz : y ≤ (if x < z then z else x) := by
          rw [h3]
          split
          · exact le_rfl
          · exact le_of_not_lt (by assumption)
        exact le_trans hz (ih _ _ (List.mem_cons_self _ _))
      · exact ih _ _ (List.mem_cons_of_mem _ h4)

/-- The running maximum is one of the scanned elements. -/
theorem foldMax_mem (xs : List ℝ) : ∀ x : ℝ, foldMax x xs ∈ x :: xs := by
  induction xs with
  | nil => intro x; simp [foldMax]
  | cons z zs ih =>
    intro x
    have step : foldMax x (z :: zs) = foldMax (if x < z then z else x) zs := rfl
    rw [step]
    rcases List.mem_cons.mp (ih (if x < z then z else x)) with h | h
    · rw [h]
      split
      · exact List.mem_cons_of_mem _ (List.mem_cons_self _ _)
      · exact List.mem_cons_self _ _
    · exact List.mem_cons_of_mem _ (List.mem_cons_of_mem _ h)

end ListMaxLemmas

section DbTheorems

theorem logb_ten_hundred : Real.logb 10 100 = 2 := by
  have h : (100 : ℝ) = 10 ^ (2 : ℕ) := by norm_num
  rw [h, Real.logb_pow, Real.logb_self_eq_one (by norm_num)]
  norm_num

theorem logb_ten_thousand : Real.logb 10 1000 = 3 := by
  have h : (1000 : ℝ) = 10 ^ (3 : ℕ) := by norm_num
  rw [h, Real.logb_pow, Real.logb_self_eq_one (by norm_num)]
  norm_num

/-- Claim C1: the dB conversion is claimed to replace each element x by
factor * log10(max(min_value, x)) - factor * log10(max(min_value,
reference)).  The code instead subtracts the unscaled log10 of the
reference inside the log10 argument: at spectrogram value 100 with
min_value 1 and reference 1000 (power 1, factor 20) the code produces
20 * log10(100 - 3) = 20 * log10(97), a positive number, while the claimed
formula gives 20 * log10(100) - 20 * log10(1000) = -20. -/
theorem C1_db_formula_bug :
    amplitude_to_db [100] 1000 1 none = .ok [20 * Real.logb 10 97] ∧
    0 < 20 * Real.logb 10 97 ∧
    20 * Real.logb 10 (max 1 (100 : ℝ)) - 20 * Real.logb 10 (max 1 (1000 : ℝ))
      = -20 := by
  refine ⟨?_, ?_, ?_⟩
  · have h1 : max (1 : ℝ) 1000 = 1000 := max_eq_right (by norm_num)
    have h2 : max (1 : ℝ) 100 = 100 := max_eq_right (by norm_num)
    simp only [amplitude_to_db, dbConversionHelper, dbMapped, h1, h2,
      logb_ten_thousand]
    norm_num
  · have := Real.logb_pos (b := 10) (x := 97) (by norm_num) (by norm_num)
    linarith
  · rw [max_eq_right (by norm_num : (1:ℝ) ≤ 100),
      max_eq_right (by norm_num : (1:ℝ) ≤ 1000),
      logb_ten_hundred, logb_ten_thousand]
    norm_num

theorem foldMaxJs_num (x : ℝ) (xs : List ℝ) :
    foldMaxJs (JsNum.num x) (xs.map JsNum.num) = JsNum.num (foldMax x xs) := by
  induction xs generalizing x with
  | nil => rfl
  | cons y ys ih =>
    simp only [List.map_cons, foldMaxJs, List.foldl_cons, foldMax] at *
    rw [show (if jsGt (JsNum.num y) (JsNum.num x) then JsNum.num y
        else JsNum.num x) = JsNum.num (if x < y then y else x) by
      by_cases h : x < y <;> simp [jsGt, h]]
    exact ih _

theorem dbMappedJs_of_pos (l : List ℝ) (factor reference min_value : ℝ)
    (hpos : ∀ x ∈ l,
      Real.logb 10 (max min_value reference) < max min_value x) :
    dbMappedJs l factor reference min_value
      = (dbMapped l factor reference min_value).map JsNum.num := by
  simp only [dbMappedJs, dbMapped, List.map_map]
  refine List.map_congr_left ?_
  intro x hx
  have h := hpos x hx
  simp only [Function.comp_apply, jsLog10, if_pos (by linarith :
    (0 : ℝ) < max min_value x - Real.logb 10 (max min_value reference))]
  rfl

/-- Claim C6 (as amended): with db_range = 80, whenever every element's
log10 argument max(min_value, x) - log10(max(min_value, reference)) is
positive, the converted values are all finite and the clip bounds them in
a band of width 80: the helper returns exactly the finite values
max(converted, max(converted values) - 80), each lies between the converted
maximum minus 80 and that maximum, and any two outputs differ by at most
80.  The proviso is necessary: when the clamped reference exceeds 1 and an
element is small, the log10 argument is negative, the source produces NaN,
and the clip keeps it (see the counterexample). -/
theorem C6_db_range_band (l : List ℝ) (factor reference min_value : ℝ)
    (h1 : 0 < reference) (h2 : 0 < min_value) (h3 : l ≠ [])
    (hpos : ∀ x ∈ l,
      Real.logb 10 (max min_value reference) < max min_value x) :
    ∃ m, mathsMax (dbMapped l factor reference min_value) = .ok m ∧
      dbConversionHelperJs l factor reference min_value (some 80)
        = .ok ((dbMapped l factor reference min_value).map
            (fun x => JsNum.num (max x (m - 80)))) ∧
      (∀ x ∈ (dbMapped l factor reference min_value).map
          (fun x => max x (m - 80)), m - 80 ≤ x ∧ x ≤ m) ∧
      (∀ x ∈ (dbMapped l factor reference min_value).map
          (fun x => max x (m - 80)),
       ∀ y ∈ (dbMapped l factor reference min_value).map
          (fun x => max x (m - 80)), x - y ≤ 80) := by
  obtain ⟨a, as, rfl⟩ := List.exists_cons_of_ne_nil h3
  set f : ℝ → ℝ := fun x =>
    factor * Real.logb 10 (max min_value x -
      Real.logb 10 (max min_value reference)) with hf
  have hmapped : dbMapped (a :: as) factor reference min_value
      = f a :: as.map f := rfl
  set m := foldMax (f a) (as.map f) with hm
  have hmax : mathsMax (dbMapped (a :: as) factor reference min_value)
      = .ok m := by rw [hmapped]; rfl
  have hjs := dbMappedJs_of_pos (a :: as) factor reference min_value hpos
  have hmaxjs : mathsMaxJs
      ((dbMapped (a :: as) factor reference min_value).map JsNum.num)
      = .ok (JsNum.num m) := by
    rw [hmapped]
    simp only [List.map_cons, mathsMaxJs, foldMaxJs_num]
  have hhelper : dbConversionHelperJs (a :: as) factor reference min_value
      (some 80)
      = .ok ((dbMapped (a :: as) factor reference min_value).map
          (fun x => JsNum.num (max x (m - 80)))) := by
    simp only [dbConversionHelperJs, if_neg (not_le.mpr h1),
      if_neg (not_le.mpr h2), if_neg (by norm_num : ¬ (80 : ℝ) ≤ 0), hmaxjs,
      hjs, List.map_map]
    congr 1
  refine ⟨m, hmax, hhelper, ?_, ?_⟩
  · intro x hx
    rw [hmapped] at hx
    obtain ⟨t, ht, rfl⟩ := List.mem_map.mp hx
    have htle : t ≤ m := le_foldMax (as.map f) (f a) t ht
    constructor
    · exact le_max_right _ _
    · exact max_le htle (by linarith)
  · intro x hx y hy
    rw [hmapped] at hx hy
    obtain ⟨t, ht, rfl⟩ := List.mem_map.mp hx
    obtain ⟨u, hu, rfl⟩ := List.mem_map.mp hy
    have htle : t ≤ m := le_foldMax (as.map f) (f a) t ht
    have hxle : max t (m - 80) ≤ m := max_le htle (by linarith)
    have hyge : m - 80 ≤ max u (m - 80) := le_max_right _ _
    linarith

/-- Witness for Claim C6 at the one-element list [100] with factor 20,
reference 1 and min_value 1: the log10 argument is 100 - log10(1) = 100,
positive, so the band property applies. -/
theorem C6_db_range_band_witness :
    ∃ m, mathsMax (dbMapped [100] 20 1 1) = .ok m ∧
      dbConversionHelperJs [100] 20 1 1 (some 80)
        = .ok ((dbMapped [100] 20 1 1).map
            (fun x => JsNum.num (max x (m - 80)))) ∧
      (∀ x ∈ (dbMapped [100] 20 1 1).map (fun x => max x (m - 80)),
        m - 80 ≤ x ∧ x ≤ m) ∧
      (∀ x ∈ (dbMapped [100] 20 1 1).map (fun x => max x (m - 80)),
       ∀ y ∈ (dbMapped [100] 20 1 1).map (fun x => max x (m - 80)),
        x - y ≤ 80) :=
  C6_db_range_band [100] 20 1 1 one_pos one_pos (by simp)
    (by
      intro x hx
      simp only [List.mem_singleton] at hx
      subst hx
      simp [Real.logb_one])

/-- Counterexample to the original Claim C6: at reference 1000 and
min_value 1e-10 (a fully validated call with db_range = 80), the element 0
gives the log10 argument 1e-10 - log10(1000) = 1e-10 - 3 < 0, so the source
computes log10 of a negative number; the resulting NaN survives both the
max scan and the clip, and the returned entry is not a finite number, so
max(output) - min(output) <= 80 fails. -/
theorem C6_counterexample :
    dbConversionHelperJs [0] 20 1000 (1e-10) (some 80) = .ok [JsNum.nan] ∧
    (∀ x : ℝ, JsNum.nan ≠ JsNum.num x) := by
  constructor
  · have harg : max (1e-10 : ℝ) 0 - Real.logb 10 (max (1e-10 : ℝ) 1000)
        = 1e-10 - 3 := by
      rw [show max (1e-10 : ℝ) 1000 = 1000 by norm_num, logb_ten_thousand]
      norm_num
    have hmap : dbMappedJs [0] 20 1000 (1e-10) = [JsNum.nan] := by
      simp only [dbMappedJs, List.map_cons, List.map_nil, harg]
      rw [jsLog10, if_neg (by norm_num), if_neg (by norm_num)]
      rfl
    simp only [dbConversionHelperJs, if_neg (by norm_num : ¬ (1000 : ℝ) ≤ 0),
      if_neg (by norm_num : ¬ (1e-10 : ℝ) ≤ 0),
      if_neg (by norm_num : ¬ (80 : ℝ) ≤ 0), hmap]
    rfl
  · intro x h
    exact JsNum.noConfusion h

end DbTheorems

section WindowTheorems

/-- Claim C8 counterexample: with periodic = true and window length 1, the
hann window is generated at length 2 and truncated, so the result is [0],
not the claimed [1.0]. -/
theorem hanning_two : hanning 2 = [0, 0] := by
  have key : ∀ i : Fin (2 : ℤ).toNat,
      (0.5 : ℝ) - (1 - 0.5) * Real.cos (i * (2 * Real.pi / (((2 : ℤ) : ℝ) - 1)))
        = (fun _ : Fin (2 : ℤ).toNat => (0 : ℝ)) i := by
    intro i
    fin_cases i
    · simp
      norm_num
    · norm_num
  rw [hanning, generalized_cosine_window, if_neg (by norm_num),
    if_neg (by norm_num), funext key]
  simp [List.ofFn_const]

theorem C8_counterexample :
    window_function 1 "hann" true none = .ok [0] ∧ (0 : ℝ) ≠ 1 := by
  constructor
  · simp [window_function, hanning_two, Except.bind]
  · norm_num

theorem gcw_of_lt_one (M : ℤ) (a0 : ℝ) (h : M < 1) :
    generalized_cosine_window M a0 = [] := by
  rw [generalized_cosine_window, if_pos h]

theorem hamming_two : hamming 2 = [0.08, 0.08] := by
  have key : ∀ i : Fin (2 : ℤ).toNat,
      (0.54 : ℝ) - (1 - 0.54) * Real.cos (i * (2 * Real.pi / (((2 : ℤ) : ℝ) - 1)))
        = (fun _ : Fin (2 : ℤ).toNat => (0.08 : ℝ)) i := by
    intro i
    fin_cases i
    · simp
      norm_num
    · norm_num
  rw [hamming, generalized_cosine_window, if_neg (by norm_num),
    if_neg (by norm_num), funext key]
  simp [List.ofFn_const]

/-- Claim C8 (amended): with periodic = false, every kind yields the empty
window for length at most 0 and [1.0] for length 1; with periodic = true,
length 0 also yields the empty window for every kind, but length 1 yields
the first sample of the length-2 window: [1.0] for boxcar, [0.0] for hann
and povey, [0.08] for hamming.  For boxcar a strictly negative
non-periodic length fails on typed array construction instead of giving an
empty window. -/
theorem C8_degenerate (wl : ℤ) (b : Bool) (hwl : wl ≤ 0) :
    window_function wl "hann" b none = .ok [] ∧
    window_function wl "hamming" b none = .ok [] ∧
    window_function wl "povey" b none = .ok [] ∧
    window_function 0 "boxcar" b none = .ok [] ∧
    window_function 1 "hann" b none = .ok [if b then 0 else 1] ∧
    window_function 1 "hamming" b none = .ok [if b then 0.08 else 1] ∧
    window_function 1 "povey" b none = .ok [if b then 0 else 1] ∧
    window_function 1 "boxcar" b none = .ok [1] := by
  have htake : wl.toNat = 0 := Int.toNat_of_nonpos hwl
  have h1 : hanning 1 = [1] := rfl
  have h1m : hamming 1 = [1] := rfl
  cases b with
  | true =>
    refine ⟨?_, ?_, ?_, ?_, ?_, ?_, ?_, ?_⟩
    · simp [window_function, Except.bind, htake]
    · simp [window_function, Except.bind, htake]
    · simp [window_function, Except.bind, htake]
    · simp [window_function, Except.bind]
    · simp [window_function, Except.bind, hanning_two]
    · simp [window_function, Except.bind, hamming_two]
    · simp [window_function, Except.bind, hanning_two,
        Real.zero_rpow (by norm_num : (0.85 : ℝ) ≠ 0)]
    · simp [window_function, Except.bind]
      norm_num
  | false =>
    have hz : hanning wl = [] := gcw_of_lt_one wl 0.5 (by omega)
    have hzm : hamming wl = [] := gcw_of_lt_one wl 0.54 (by omega)
    refine ⟨?_, ?_, ?_, ?_, ?_, ?_, ?_, ?_⟩
    · simp [window_function, Except.bind, hz]
    · simp [window_function, Except.bind, hzm]
    · simp [window_function, Except.bind, hz]
    · simp [window_function, Except.bind]
    · simp [window_function, Except.bind, h1]
    · simp [window_function, Except.bind, h1m]
    · simp [window_function, Except.bind, h1, Real.one_rpow]
    · simp [window_function, Except.bind]
      norm_num

/-- Witness for Claim C8 at length 0, periodic. -/
theorem C8_degenerate_witness :
    window_function 0 "hann" true none = .ok [] ∧
    window_function 0 "hamming" true none = .ok [] ∧
    window_function 0 "povey" true none = .ok [] ∧
    window_function 0 "boxcar" true none = .ok [] ∧
    window_function 1 "hann" true none = .ok [if true then 0 else 1] ∧
    window_function 1 "hamming" true none = .ok [if true then 0.08 else 1] ∧
    window_function 1 "povey" true none = .ok [if true then 0 else 1] ∧
    window_function 1 "boxcar" true none = .ok [1] :=
  C8_degenerate 0 true (le_refl 0)

end WindowTheorems

section FFTAliasingTheorems

theorem nmul_none_right (x : Option ℝ) : nmul x none = none := by
  cases x <;> rfl

theorem nsub_none_left (y : Option ℝ) : nsub none y = none := by
  cases y <;> rfl

theorem nadd_none_left (y : Option ℝ) : nadd none y = none := by
  cases y <;> rfl

/-- Claim C4 counterexample: a non-power-of-two plan (length 3) called with
the output buffer aliased to the input buffer does not fail: NP2FFT
performs no aliasing check. -/
theorem C4_counterexample :
    (fftTransform 3 true (fun _ => 0) (fun _ => 0)).isOk = true ∧
    (fftRealTransform 3 true (fun _ => 0) (fun _ => 0)).isOk = true := by
  constructor <;> rfl

/-- Claim C4 (amended): on power-of-two plans (and the facade dispatching
to them) transform and realTransform fail on aliased buffers with the
aliasing error before any output is produced, but NP2FFT performs no such
check: on non-power-of-two lengths an aliased transform or realTransform
always completes without error. -/
theorem C4_aliasing :
    (∀ (size : ℕ) (out0 data : ℤ → ℝ),
      p2transform size true out0 data
        = .error "Input and output buffers must be different" ∧
      p2realTransform size true out0 data
        = .error "Input and output buffers must be different") ∧
    (∀ (N : ℕ) (input : ℤ → ℝ),
      (np2transform N true input).isOk = true ∧
      (np2realTransform N true input).isOk = true) ∧
    (∀ (n : ℕ) (out0 input : ℤ → ℝ), isPowerOfTwo n = true →
      fftTransform n true out0 input
        = .error "Input and output buffers must be different" ∧
      fftRealTransform n true out0 input
        = .error "Input and output buffers must be different") ∧
    (∀ (n : ℕ) (out0 input : ℤ → ℝ), isPowerOfTwo n = false →
      (fftTransform n true out0 input).isOk = true ∧
      (fftRealTransform n true out0 input).isOk = true) := by
  refine ⟨fun size out0 data => ⟨rfl, rfl⟩, fun N input => ⟨rfl, rfl⟩,
    fun n out0 input h => ?_, fun n out0 input h => ?_⟩
  · constructor <;>
      simp [fftTransform, fftRealTransform, h, p2transform, p2realTransform,
        Except.map]
  · constructor <;>
      simp [fftTransform, fftRealTransform, h, np2transform, np2realTransform,
        Except.isOk, Except.toBool]

end FFTAliasingTheorems

section NP2OOBTheorems

/-- Claim C10: for a non-power-of-two plan of length N, the sliced chirp
view has length exactly 2N while the final output loop runs over the whole
convolution buffer, whose size nextP2 is at least 2(2N - 1); every output
entry at index at least 2N is the product of out-of-bounds sliced-chirp
reads and is NaN (none), and every entry below 2N is a defined number. -/
theorem C10_np2_oob (N : ℕ) (h2 : 2 ≤ N) (hnp : isPowerOfTwo N = false)
    (real : Bool) (input : ℤ → ℝ) (j : ℕ) :
    np2b N - np2a N = 2 * N ∧
    2 * (2 * N - 1) ≤ nextP2 N ∧
    (2 * N ≤ j → np2Output N real input j = none) ∧
    (j < 2 * N → (np2Output N real input j).isSome = true) := by
  have hsb : np2b N - np2a N = 2 * N := by
    simp only [np2a, np2b]; omega
  have hble : np2b N ≤ nextP2 N := Nat.le_pow_clog (by norm_num) _
  have hbn : np2b N = 2 * (2 * N - 1) := rfl
  have han : np2a N = 2 * (N - 1) := rfl
  refine ⟨hsb, le_trans (le_of_eq hbn.symm) hble, ?_, ?_⟩
  · intro hj
    rcases Nat.even_or_odd j with he | ho
    · have hjm : j % 2 = 0 := Nat.even_iff.mp he
      have hnone : sbRead N j = none := by
        rw [sbRead, if_neg]
        omega
      simp [np2Output, hjm, hnone, nmul_none_right, nsub_none_left]
    · have hjm : j % 2 = 1 := Nat.odd_iff.mp ho
      have hnone : sbRead N j = none := by
        rw [sbRead, if_neg]
        omega
      simp [np2Output, hjm, hnone, nmul_none_right, nadd_none_left]
  · intro hj
    rcases Nat.even_or_odd j with he | ho
    · have hjm : j % 2 = 0 := Nat.even_iff.mp he
      have hs1 : sbRead N j = some (chirpVal N (np2a N + j)) := by
        rw [sbRead, if_pos (by omega)]
      have hs2 : sbRead N (j + 1) = some (chirpVal N (np2a N + (j + 1))) := by
        rw [sbRead, if_pos (by omega)]
      have hc1 : (0 : ℤ) ≤ (j : ℤ) + (np2a N : ℤ) ∧
          (j : ℤ) + (np2a N : ℤ) < ((nextP2 N : ℕ) : ℤ) := by
        constructor <;> omega
      have hc2 : (0 : ℤ) ≤ (j : ℤ) + (np2a N : ℤ) + 1 ∧
          (j : ℤ) + (np2a N : ℤ) + 1 < ((nextP2 N : ℕ) : ℤ) := by
        constructor <;> omega
      have ho1 : obRead N real input ((j : ℤ) + (np2a N : ℤ))
          = some (np2outBuffer2 N real input ((j : ℤ) + (np2a N : ℤ))) := by
        rw [obRead]
        rw [if_pos hc1]
      have ho2 : obRead N real input ((j : ℤ) + (np2a N : ℤ) + 1)
          = some (np2outBuffer2 N real input ((j : ℤ) + (np2a N : ℤ) + 1)) := by
        rw [obRead]
        rw [if_pos hc2]
      simp only [np2Output, hjm, reduceIte, ho1, ho2, hs1, hs2]
      rfl
    · have hjm : j % 2 = 1 := Nat.odd_iff.mp ho
      have hs1 : sbRead N j = some (chirpVal N (np2a N + j)) := by
        rw [sbRead, if_pos (by omega)]
      have hs2 : sbRead N (j - 1) = some (chirpVal N (np2a N + (j - 1))) := by
        rw [sbRead, if_pos (by omega)]
      have hc1 : (0 : ℤ) ≤ (j : ℤ) - 1 + (np2a N : ℤ) ∧
          (j : ℤ) - 1 + (np2a N : ℤ) < ((nextP2 N : ℕ) : ℤ) := by
        constructor <;> omega
      have hc2 : (0 : ℤ) ≤ (j : ℤ) + (np2a N : ℤ) ∧
          (j : ℤ) + (np2a N : ℤ) < ((nextP2 N : ℕ) : ℤ) := by
        constructor <;> omega
      have ho1 : obRead N real input ((j : ℤ) - 1 + (np2a N : ℤ))
          = some (np2outBuffer2 N real input ((j : ℤ) - 1 + (np2a N : ℤ))) := by
        rw [obRead]
        rw [if_pos hc1]
      have ho2 : obRead N real input ((j : ℤ) + (np2a N : ℤ))
          = some (np2outBuffer2 N real input ((j : ℤ) + (np2a N : ℤ))) := by
        rw [obRead]
        rw [if_pos hc2]
      have hne : ¬ j % 2 = 0 := by omega
      simp only [np2Output, hne, reduceIte, ho1, ho2, hs1, hs2]
      rfl

/-- Witness for Claim C10 at N = 3 and output index 6 = 2N. -/
theorem C10_np2_oob_witness :
    np2b 3 - np2a 3 = 2 * 3 ∧ 2 * (2 * 3 - 1) ≤ nextP2 3 ∧
    np2Output 3 false (fun _ => 0) 6 = none := by
  obtain ⟨a, b, c, d⟩ := C10_np2_oob 3 (by norm_num) (by decide) false
    (fun _ => 0) 6
  exact ⟨a, b, c (by norm_num)⟩

end NP2OOBTheorems

section SpectrogramTheorems

/-- The frame count of the source equals integer floor division. -/
theorem specNumFrames_fdiv (len frame hop : ℕ) :
    specNumFrames len frame hop
      = 1 + Int.fdiv ((len : ℤ) - (frame : ℤ)) (hop : ℤ) := by
  have hinner : ((len : ℚ) - (frame : ℚ)) / (hop : ℚ)
      = (((len : ℤ) - (frame : ℤ) : ℤ) : ℚ) / ((hop : ℕ) : ℚ) := by
    push_cast
    ring
  rw [specNumFrames, hinner, Rat.floor_intCast_div_natCast]
  rw [show (1 : ℚ) + ((((len : ℤ) - (frame : ℤ)) / (hop : ℕ) : ℤ) : ℚ)
      = (((1 + ((len : ℤ) - (frame : ℤ)) / (hop : ℕ) : ℤ)) : ℚ) by push_cast; ring]
  rw [Int.floor_intCast, Int.fdiv_eq_ediv _ (by positivity)]

/-- With no mel filter bank, every spectrogram call fails: the paths that
pass validation reach the unconditional mel filter check and throw. -/
theorem spectrogram_none_fails (waveform window : List ℝ)
    (frame_length hop_length : ℕ) (opts : SpecOpts)
    (h : opts.mel_filters = none) :
    (spectrogram waveform window frame_length hop_length opts).isOk = false := by
  unfold spectrogram
  simp only [h]
  split_ifs <;> rfl

/-- Claim C2 counterexample: a configuration that passes every validation
(power 1, frame 4 = fft 4, window of length 4, hop 2) but omits
mel_filters does not return a linear spectrogram: it fails. -/
theorem C2_counterexample :
    (spectrogram (List.replicate 8 0) (List.replicate 4 1) 4 2
      { power := some 1, center := false, mel_filters := none }).isOk
      = false ∧
    spectrogram (List.replicate 8 0) (List.replicate 4 1) 4 2
      { power := some 1, center := false, mel_filters := none }
      = .error "mel_filters must be provided" := by
  constructor
  · exact spectrogram_none_fails _ _ _ _ _ rfl
  · unfold spectrogram
    norm_num [List.length_replicate]

/-- Claim C2 (amended): a spectrogram call without mel_filters never
completes: whatever the rest of the configuration, the result is an
error. -/
theorem C2_no_linear_spectrogram (waveform window : List ℝ)
    (frame_length hop_length : ℕ) (opts : SpecOpts)
    (h : opts.mel_filters = none) :
    (spectrogram waveform window frame_length hop_length opts).isOk = false :=
  spectrogram_none_fails waveform window frame_length hop_length opts h

/-- Witness for Claim C2: the validated configuration of the
counterexample, through the amended theorem. -/
theorem C2_no_linear_spectrogram_witness :
    (spectrogram (List.replicate 16 0) (List.replicate 4 1) 4 2
      { power := some 2, center := false, mel_filters := none }).isOk
      = false :=
  C2_no_linear_spectrogram _ _ _ _ _ rfl

end SpectrogramTheorems

section ShapeTheorems

/-- The tensor returned on the no-log path, assembled from the named
pipeline pieces. -/
noncomputable def specResultTensor (waveform window : List ℝ)
    (frame hop : ℕ) (opts : SpecOpts) (mf : List (List ℝ)) : STensor :=
  let fftl := opts.fft_length.getD frame
  let wv := specWaveform waveform fftl opts.center
  let nf := specClampMin (specNumFrames wv.length frame hop)
    opts.min_num_frames
  let dd := specD1 nf opts.max_num_frames opts.do_pad
  let spec1 := specMelSpec wv window frame hop fftl opts.remove_dc_offset
    opts.preemphasis opts.power dd.1.toNat dd.2.toNat
    (specBins fftl opts.onesided) mf opts.transpose
  ⟨spec1.dims, spec1.data.map (fun x => max opts.mel_floor x)⟩

/-- The magnitude tensor dims. -/
theorem specMagTensor_dims (wv window : List ℝ) (frame hop fftl : ℕ)
    (removeDC : Bool) (pre : Option ℝ) (power : Option ℚ)
    (d1 d1Max bins : ℕ) :
    (specMagTensor wv window frame hop fftl removeDC pre power
      d1 d1Max bins).dims = [bins, d1Max] := rfl

/-- A validated call with mel filters and no log scaling returns the
floored mel spectrogram tensor. -/
theorem spectrogram_ok_nolog (waveform window : List ℝ) (frame hop : ℕ)
    (opts : SpecOpts) (mf : List (List ℝ))
    (hmf : opts.mel_filters = some mf)
    (hpow : opts.power ≠ none)
    (h1 : ¬ frame > opts.fft_length.getD frame)
    (h2 : window.length = frame)
    (h3 : ¬ hop = 0)
    (h4 : ¬ (opts.center = true ∧ opts.pad_mode ≠ "reflect"))
    (hlm : opts.log_mel = none) :
    spectrogram waveform window frame hop opts
      = .ok (specResultTensor waveform window frame hop opts mf) := by
  have hval4 : ¬ (opts.power = none ∧ opts.mel_filters ≠ none) := by
    rintro ⟨hp0, _⟩
    exact hpow hp0
  unfold spectrogram specResultTensor
  rw [if_neg h1, if_neg (by rw [h2]; exact fun hc => hc rfl), if_neg h3,
    if_neg hval4, if_neg h4]
  simp only [hmf, hlm]
  simp

/-- Claim C5: the frame count is floor(1 + floor((length - frame_length) /
hop_length)) (equivalently, one plus the floor division), and for a 16000
sample waveform with frame_length 400, hop_length 160 and center false the
spectrogram has exactly 98 frames. -/
theorem C5_frame_count :
    (∀ len frame hop : ℕ, specNumFrames len frame hop
        = 1 + Int.fdiv ((len : ℤ) - (frame : ℤ)) (hop : ℤ)) ∧
    specNumFrames 16000 400 160 = 98 ∧
    (∃ t, spectrogram (List.replicate 16000 0) (List.replicate 400 1) 400 160
        { power := some 1, center := false,
          mel_filters := some [List.replicate 201 1] } = .ok t ∧
      t.dims = [1, 98]) := by
  have hnf : specNumFrames 16000 400 160 = 98 := by
    rw [specNumFrames_fdiv]
    decide
  refine ⟨specNumFrames_fdiv, hnf, ?_⟩
  have hok := spectrogram_ok_nolog (List.replicate 16000 0)
    (List.replicate 400 1) 400 160
    { power := some 1, center := false,
      mel_filters := some [List.replicate 201 1] }
    [List.replicate 201 1] rfl (by simp) (by norm_num)
    (List.length_replicate 400 1) (by norm_num) (by simp) rfl
  refine ⟨_, hok, ?_⟩
  simp only [specResultTensor, specWaveform, Bool.false_eq_true, if_false,
    List.length_replicate, hnf, specClampMin, specD1, specMelSpec, matmulT,
    specBins, Option.getD, specMagTensor_dims]
  norm_num [List.getD]
  decide

end ShapeTheorems

section PaddingTheorems

/-- With max_num_frames = M exceeding the computed frame count and do_pad
set, the returned tensor has M frames and each entry of a frame at or past
the computed count d1 equals max(mel_floor, 0): the magnitude buffer holds
zero there, the mel projection of a zero column is zero, and the mel floor
clamp raises it. -/
theorem spec_padded_value (waveform window : List ℝ) (frame hop : ℕ)
    (opts : SpecOpts) (mf : List (List ℝ)) (M : ℕ) (p : ℚ)
    (hmf : opts.mel_filters = some mf)
    (hp : opts.power = some p) (hp0 : p ≠ 0)
    (h1 : ¬ frame > opts.fft_length.getD frame)
    (h2 : window.length = frame)
    (h3 : ¬ hop = 0)
    (h4 : ¬ (opts.center = true ∧ opts.pad_mode ≠ "reflect"))
    (hlm : opts.log_mel = none)
    (htr : opts.transpose = false)
    (hM : opts.max_num_frames = some M)
    (hdp : opts.do_pad = true)
    (hshort : specClampMin
        (specNumFrames
          (specWaveform waveform (opts.fft_length.getD frame)
            opts.center).length frame hop)
        opts.min_num_frames < (M : ℤ))
    (r c : ℕ) (hr : r < mf.length)
    (hc1 : (specClampMin
        (specNumFrames
          (specWaveform waveform (opts.fft_length.getD frame)
            opts.center).length frame hop)
        opts.min_num_frames).toNat ≤ c)
    (hc2 : c < M) :
    ∃ t, spectrogram waveform window frame hop opts = .ok t ∧
      t.dims = [mf.length, M] ∧
      t.data.getD (r * M + c) 0 = max opts.mel_floor 0 := by
  have hpow : opts.power ≠ none := by rw [hp]; exact Option.some_ne_none p
  have hok := spectrogram_ok_nolog waveform window frame hop opts mf hmf
    hpow h1 h2 h3 h4 hlm
  have hDD : specD1
      (specClampMin
        (specNumFrames
          (specWaveform waveform (opts.fft_length.getD frame)
            opts.center).length frame hop)
        opts.min_num_frames)
      opts.max_num_frames opts.do_pad
      = (specClampMin
          (specNumFrames
            (specWaveform waveform (opts.fft_length.getD frame)
              opts.center).length frame hop)
          opts.min_num_frames, (M : ℤ)) := by
    rw [hM, hdp]
    simp [specD1, hshort]
  refine ⟨_, hok, ?_, ?_⟩
  · simp only [specResultTensor, specMelSpec, hDD, htr, specMagTensor_dims,
      matmulT, Bool.false_eq_true, if_false, Int.toNat_natCast]
    rfl
  · have hAdj0 : specMagAdj opts.power 0 = 0 := by
      rw [hp]
      simp only [specMagAdj]
      by_cases hp2 : p = 2
      · simp [hp2]
      · rw [if_neg hp2]
        exact Real.zero_rpow
          (div_ne_zero (by norm_num) (by exact_mod_cast hp0))
    simp only [specResultTensor, specMelSpec, hDD, htr, specMagTensor_dims,
      Bool.false_eq_true, if_false, Int.toNat_natCast]
    set bins := specBins (opts.fft_length.getD frame) opts.onesided with hbins
    set d1 := (specClampMin
        (specNumFrames
          (specWaveform waveform (opts.fft_length.getD frame)
            opts.center).length frame hop)
        opts.min_num_frames).toNat with hd1
    have hidx : r * M + c < mf.length * M := by
      calc r * M + c < (r + 1) * M := by ring_nf; omega
        _ ≤ mf.length * M := Nat.mul_le_mul_right M hr
    simp only [matmulT, specMagTensor]
    simp only [List.getD_cons_succ, List.getD_cons_zero]
    have hM0 : 0 < M := by omega
    have hmodc : (r * M + c) % M = c := by
      rw [show r * M + c = M * r + c by ring, Nat.mul_add_mod,
        Nat.mod_eq_of_lt hc2]
    have hdivc : (r * M + c) / M = r := by
      rw [Nat.add_comm, Nat.add_mul_div_right _ _ hM0, Nat.div_eq_of_lt hc2]
      omega
    rw [List.getD_eq_getElem?_getD, List.getElem?_map, List.getElem?_ofFn]
    simp only [List.ofFnNthVal, hidx, dif_pos, Option.map_some,
      Option.map_some', Option.getD_some, hmodc, hdivc]
    congr 1
    refine Finset.sum_eq_zero ?_
    intro x hx
    have hxb : x < bins := Finset.mem_range.mp hx
    have hxidx : x * M + c < bins * M := by
      calc x * M + c < (x + 1) * M := by ring_nf; omega
        _ ≤ bins * M := Nat.mul_le_mul_right M hxb
    have hmodx : (x * M + c) % M = c := by
      rw [show x * M + c = M * x + c by ring, Nat.mul_add_mod,
        Nat.mod_eq_of_lt hc2]
    simp only [List.getD_eq_getElem?_getD, List.getElem?_ofFn]
    simp only [List.ofFnNthVal, hxidx, dif_pos, Option.getD_some]
    rw [specMagData, hmodx, if_neg (by omega), hAdj0, mul_zero]

/-- Claim C9 (amended): with max_num_frames exceeding the computed frame
count and do_pad set, the output tensor is sized to max_num_frames frames;
the unwritten frames are zero in the magnitude buffer, but in the returned
(untransposed, unscaled) tensor every value of a padded frame equals
max(mel_floor, 0) -- the mel floor, not zero, for the positive default
floor. -/
theorem C9_padding (waveform window : List ℝ) (frame hop : ℕ)
    (opts : SpecOpts) (mf : List (List ℝ)) (M : ℕ) (p : ℚ)
    (hmf : opts.mel_filters = some mf)
    (hp : opts.power = some p) (hp0 : p ≠ 0)
    (h1 : ¬ frame > opts.fft_length.getD frame)
    (h2 : window.length = frame)
    (h3 : ¬ hop = 0)
    (h4 : ¬ (opts.center = true ∧ opts.pad_mode ≠ "reflect"))
    (hlm : opts.log_mel = none)
    (htr : opts.transpose = false)
    (hM : opts.max_num_frames = some M)
    (hdp : opts.do_pad = true)
    (hshort : specClampMin
        (specNumFrames
          (specWaveform waveform (opts.fft_length.getD frame)
            opts.center).length frame hop)
        opts.min_num_frames < (M : ℤ))
    (r c : ℕ) (hr : r < mf.length)
    (hc1 : (specClampMin
        (specNumFrames
          (specWaveform waveform (opts.fft_length.getD frame)
            opts.center).length frame hop)
        opts.min_num_frames).toNat ≤ c)
    (hc2 : c < M) :
    ∃ t, spectrogram waveform window frame hop opts = .ok t ∧
      t.dims = [mf.length, M] ∧
      t.data.getD (r * M + c) 0 = max opts.mel_floor 0 :=
  spec_padded_value waveform window frame hop opts mf M p hmf hp hp0 h1 h2
    h3 h4 hlm htr hM hdp hshort r c hr hc1 hc2

/-- Claim C9 counterexample: waveform of 4 samples, frame 2, hop 2 gives 2
computed frames; with max_num_frames 3 and do_pad the padded third frame
of the returned tensor holds the mel floor 1e-10, which is not zero. -/
theorem C9_counterexample :
    ∃ t, spectrogram (List.replicate 4 1) (List.replicate 2 1) 2 2
        { power := some 1, center := false, mel_filters := some [[1, 1]],
          max_num_frames := some 3 } = .ok t ∧
      t.dims = [1, 3] ∧
      t.data.getD 2 0 = 1e-10 ∧ (1e-10 : ℝ) ≠ 0 := by
  have hnf42 : specClampMin
      (specNumFrames
        (specWaveform (List.replicate (4 : ℕ) (1 : ℝ))
          ((none : Option ℕ).getD 2) false).length 2 2) none = 2 := by
    simp only [specWaveform, Bool.false_eq_true, if_false,
      List.length_replicate, specClampMin]
    rw [specNumFrames_fdiv]
    decide
  have hlt : specClampMin
      (specNumFrames
        (specWaveform (List.replicate (4 : ℕ) (1 : ℝ))
          ((none : Option ℕ).getD 2) false).length 2 2) none < ((3 : ℕ) : ℤ) := by
    rw [hnf42]
    norm_num
  have hle : (specClampMin
      (specNumFrames
        (specWaveform (List.replicate (4 : ℕ) (1 : ℝ))
          ((none : Option ℕ).getD 2) false).length 2 2) none).toNat ≤ 2 := by
    rw [hnf42]
    decide
  obtain ⟨t, ht1, ht2, ht3⟩ := spec_padded_value (List.replicate 4 1)
    (List.replicate 2 1) 2 2
    { power := some 1, center := false, mel_filters := some [[1, 1]],
      max_num_frames := some 3 }
    [[1, 1]] 3 1 rfl rfl (by norm_num) (by norm_num)
    (List.length_replicate 2 1) (by norm_num) (by simp) rfl rfl rfl rfl
    hlt 0 2 (by norm_num) hle (by norm_num)
  refine ⟨t, ht1, by simpa using ht2, ?_, by norm_num⟩
  have := ht3
  simp only [Nat.zero_mul, Nat.zero_add] at this
  rw [this]
  rw [max_eq_left (by norm_num)]

/-- Witness for Claim C9 at the counterexample configuration. -/
theorem C9_padding_witness :
    ∃ t, spectrogram (List.replicate 4 1) (List.replicate 2 1) 2 2
        { power := some 1, center := false, mel_filters := some [[1, 1]],
          max_num_frames := some 3 } = .ok t ∧
      t.dims = [([[(1 : ℝ), 1]] : List (List ℝ)).length, 3] ∧
      t.data.getD (0 * 3 + 2) 0
        = max ({ power := some 1, center := false,
                 mel_filters := some [[1, 1]],
                 max_num_frames := some 3 } : SpecOpts).mel_floor 0 := by
  have hnf42b : specClampMin
      (specNumFrames
        (specWaveform (List.replicate (4 : ℕ) (1 : ℝ))
          ((none : Option ℕ).getD 2) false).length 2 2) none = 2 := by
    simp only [specWaveform, Bool.false_eq_true, if_false,
      List.length_replicate, specClampMin]
    rw [specNumFrames_fdiv]
    decide
  have hlt : specClampMin
      (specNumFrames
        (specWaveform (List.replicate (4 : ℕ) (1 : ℝ))
          ((none : Option ℕ).getD 2) false).length 2 2) none < ((3 : ℕ) : ℤ) := by
    rw [hnf42b]
    norm_num
  have hle : (specClampMin
      (specNumFrames
        (specWaveform (List.replicate (4 : ℕ) (1 : ℝ))
          ((none : Option ℕ).getD 2) false).length 2 2) none).toNat ≤ 2 := by
    rw [hnf42b]
    decide
  exact C9_padding (List.replicate 4 1) (List.replicate 2 1) 2 2
    { power := some 1, center := false, mel_filters := some [[1, 1]],
      max_num_frames := some 3 }
    [[1, 1]] 3 1 rfl rfl (by norm_num) (by norm_num)
    (List.length_replicate 2 1) (by norm_num) (by simp) rfl rfl rfl rfl
    hlt 0 2 (by norm_num) hle (by norm_num)

end PaddingTheorems

section RealTransformHermitian

/-! Hermitian symmetry of the P2FFT real transform.  The development follows
the structure of the source loop nest: locality lemmas for the radix kernels
and the merging butterfly, a zero-imaginary-part invariant at the block heads
through the initial pass and every merging stage, and an exact description of
the mirror-completion pass. -/

theorem upd_apply_same (s : ℤ → ℝ) (i : ℤ) (v : ℝ) : upd s i v i = v := by
  simp [upd]

theorem upd_apply_ne (s : ℤ → ℝ) (i : ℤ) (v : ℝ) (j : ℤ) (h : j ≠ i) :
    upd s i v j = s j := by
  simp [upd, h]

theorem rtButterfly_outside (table : ℕ → ℝ) (inv : ℝ) (L : ℕ) (outOff : ℤ)
    (step m : ℕ) (s : ℤ → ℝ) (j : ℤ) (hL : 1 ≤ L) (hm : m ≤ L)
    (hj : j < outOff ∨ outOff + 16 * L ≤ j) :
    rtButterfly table inv (16 * L) outOff step m s j = s j := by
  have hcast : ((16 * L / 4 : ℕ) : ℤ) = 4 * (L : ℤ) := by omega
  have hq8 : (16 * L / 8 : ℕ) = 2 * L := by omega
  have h1 : j ≠ outOff + 2 * (m : ℤ) := by omega
  have h2 : j ≠ outOff + 2 * (m : ℤ) + 1 := by omega
  have h3 : j ≠ outOff + 2 * (m : ℤ) + 4 * (L : ℤ) := by omega
  have h4 : j ≠ outOff + 2 * (m : ℤ) + 4 * (L : ℤ) + 1 := by omega
  have h5 : j ≠ outOff + 2 * (m : ℤ) + 4 * (L : ℤ) + 4 * (L : ℤ) := by omega
  have h6 : j ≠ outOff + 2 * (m : ℤ) + 4 * (L : ℤ) + 4 * (L : ℤ) + 1 := by omega
  have h7 : j ≠ outOff + 4 * (L : ℤ) - 2 * (m : ℤ) := by omega
  have h8 : j ≠ outOff + 4 * (L : ℤ) - 2 * (m : ℤ) + 1 := by omega
  have h9 : j ≠ outOff + 2 * (4 * (L : ℤ)) - 2 * (m : ℤ) := by omega
  have h10 : j ≠ outOff + 2 * (4 * (L : ℤ)) - 2 * (m : ℤ) + 1 := by omega
  simp only [rtButterfly, hcast, hq8]
  split
  · simp [upd, h1, h2, h3, h4, h5, h6]
  · split
    · simp [upd, h1, h2, h3, h4]
    · simp [upd, h1, h2, h3, h4, h7, h8, h9, h10]

theorem rtButterfly_preserves_heads (table : ℕ → ℝ) (inv : ℝ) (L : ℕ)
    (outOff : ℤ) (step m : ℕ) (s : ℤ → ℝ) (j : ℤ) (hL : 1 ≤ L)
    (hm1 : 1 ≤ m) (hm : m ≤ L)
    (hj : j = outOff + 1 ∨ j = outOff + 8 * L + 1) :
    rtButterfly table inv (16 * L) outOff step m s j = s j := by
  have hcast : ((16 * L / 4 : ℕ) : ℤ) = 4 * (L : ℤ) := by omega
  have hq8 : (16 * L / 8 : ℕ) = 2 * L := by omega
  have h1 : j ≠ outOff + 2 * (m : ℤ) := by omega
  have h2 : j ≠ outOff + 2 * (m : ℤ) + 1 := by omega
  have h3 : j ≠ outOff + 2 * (m : ℤ) + 4 * (L : ℤ) := by omega
  have h4 : j ≠ outOff + 2 * (m : ℤ) + 4 * (L : ℤ) + 1 := by omega
  have h5 : j ≠ outOff + 2 * (m : ℤ) + 4 * (L : ℤ) + 4 * (L : ℤ) := by omega
  have h6 : j ≠ outOff + 2 * (m : ℤ) + 4 * (L : ℤ) + 4 * (L : ℤ) + 1 := by omega
  have h7 : j ≠ outOff + 4 * (L : ℤ) - 2 * (m : ℤ) := by omega
  have h8 : j ≠ outOff + 4 * (L : ℤ) - 2 * (m : ℤ) + 1 := by omega
  have h9 : j ≠ outOff + 2 * (4 * (L : ℤ)) - 2 * (m : ℤ) := by omega
  have h10 : j ≠ outOff + 2 * (4 * (L : ℤ)) - 2 * (m : ℤ) + 1 := by omega
  simp only [rtButterfly, hcast, hq8]
  split
  · simp [upd, h1, h2, h3, h4, h5, h6]
  · split
    · simp [upd, h1, h2, h3, h4]
    · simp [upd, h1, h2, h3, h4, h7, h8, h9, h10]

theorem rtButterfly_head_zero (table : ℕ → ℝ) (inv : ℝ) (L : ℕ)
    (outOff : ℤ) (step : ℕ) (s : ℤ → ℝ) (hL : 1 ≤ L)
    (ht0 : table 0 = 1) (ht1 : table 1 = 0)
    (hA : s (outOff + 1) = 0) (hB : s (outOff + 4 * (L : ℤ) + 1) = 0)
    (hC : s (outOff + 4 * (L : ℤ) + 4 * (L : ℤ) + 1) = 0)
    (hD : s (outOff + 4 * (L : ℤ) + 4 * (L : ℤ) + 4 * (L : ℤ) + 1) = 0) :
    rtButterfly table inv (16 * L) outOff step 0 s (outOff + 1) = 0 ∧
    rtButterfly table inv (16 * L) outOff step 0 s
      (outOff + 4 * (L : ℤ) + 4 * (L : ℤ) + 1) = 0 := by
  have hcast : ((16 * L / 4 : ℕ) : ℤ) = 4 * (L : ℤ) := by omega
  have f1 : outOff + 1 ≠ outOff + 4 * (L : ℤ) + 4 * (L : ℤ) + 1 := by omega
  have f2 : outOff + 1 ≠ outOff + 4 * (L : ℤ) + 4 * (L : ℤ) := by omega
  have f3 : outOff + 1 ≠ outOff + 4 * (L : ℤ) + 1 := by omega
  have f4 : outOff + 1 ≠ outOff + 4 * (L : ℤ) := by omega
  constructor
  · simp [rtButterfly, hcast, upd, f1, f2, f3, f4, ht0, ht1, hA, hB, hC, hD]
  · simp [rtButterfly, hcast, upd, ht0, ht1, hA, hB, hC, hD]

theorem iterButterfly_outside (table : ℕ → ℝ) (inv : ℝ) (L : ℕ) (outOff : ℤ)
    (step : ℕ) (j : ℤ) (hL : 1 ≤ L)
    (hj : j < outOff ∨ outOff + 16 * L ≤ j) :
    ∀ n, n ≤ L + 1 → ∀ s,
      iterUp (rtButterfly table inv (16 * L) outOff step) n s j = s j := by
  intro n
  induction n with
  | zero => intro _ s; rfl
  | succ k ih =>
    intro hk s
    simp only [iterUp]
    rw [rtButterfly_outside table inv L outOff step k _ j hL (by omega) hj]
    exact ih (by omega) s

theorem iterButterfly_heads (table : ℕ → ℝ) (inv : ℝ) (L : ℕ) (outOff : ℤ)
    (step : ℕ) (s : ℤ → ℝ) (hL : 1 ≤ L)
    (ht0 : table 0 = 1) (ht1 : table 1 = 0)
    (hA : s (outOff + 1) = 0) (hB : s (outOff + 4 * (L : ℤ) + 1) = 0)
    (hC : s (outOff + 4 * (L : ℤ) + 4 * (L : ℤ) + 1) = 0)
    (hD : s (outOff + 4 * (L : ℤ) + 4 * (L : ℤ) + 4 * (L : ℤ) + 1) = 0) :
    ∀ n, 1 ≤ n → n ≤ L + 1 →
      iterUp (rtButterfly table inv (16 * L) outOff step) n s (outOff + 1) = 0 ∧
      iterUp (rtButterfly table inv (16 * L) outOff step) n s
        (outOff + 4 * (L : ℤ) + 4 * (L : ℤ) + 1) = 0 := by
  intro n
  induction n with
  | zero => intro h; omega
  | succ k ih =>
    intro _ hk
    by_cases hk0 : k = 0
    · subst hk0
      simp only [iterUp]
      exact rtButterfly_head_zero table inv L outOff step s hL ht0 ht1 hA hB hC hD
    · have hih := ih (by omega) (by omega)
      simp only [iterUp]
      constructor
      · rw [rtButterfly_preserves_heads table inv L outOff step k _ _ hL
          (by omega) (by omega) (Or.inl rfl)]
        exact hih.1
      · rw [rtButterfly_preserves_heads table inv L outOff step k _ _ hL
          (by omega) (by omega) (Or.inr (by ring))]
        exact hih.2

theorem iterUp_succ_apply {σ : Type*} (f : ℕ → σ → σ) (n : ℕ) (s : σ) :
    iterUp f (n + 1) s = f n (iterUp f n s) := rfl

theorem rtStage_blocks (table : ℕ → ℝ) (inv : ℝ) (L B : ℕ) (step : ℕ)
    (s : ℤ → ℝ) (hL : 1 ≤ L)
    (ht0 : table 0 = 1) (ht1 : table 1 = 0)
    (hzero : ∀ u : ℕ, u < 4 * B → s (4 * (L : ℤ) * u + 1) = 0) :
    ∀ n, n ≤ B →
      (∀ j : ℤ, 16 * (L : ℤ) * n ≤ j →
        iterUp (fun t => iterUp (rtButterfly table inv (16 * L)
          ((16 * L * t : ℕ) : ℤ) step) (L + 1)) n s j = s j) ∧
      (∀ t : ℕ, t < n →
        iterUp (fun t => iterUp (rtButterfly table inv (16 * L)
          ((16 * L * t : ℕ) : ℤ) step) (L + 1)) n s (16 * (L : ℤ) * t + 1) = 0 ∧
        iterUp (fun t => iterUp (rtButterfly table inv (16 * L)
          ((16 * L * t : ℕ) : ℤ) step) (L + 1)) n s
            (16 * (L : ℤ) * t + 8 * (L : ℤ) + 1) = 0) := by
  intro n
  induction n with
  | zero =>
    intro _
    exact ⟨fun j _ => rfl, fun t ht => absurd ht (Nat.not_lt_zero t)⟩
  | succ k ih =>
    intro hk
    obtain ⟨ihA, ihB⟩ := ih (by omega)
    have hcast : ((16 * L * k : ℕ) : ℤ) = 16 * (L : ℤ) * k := by push_cast; ring
    constructor
    · intro j hj
      have hj' : 16 * (L : ℤ) * k + 16 * L ≤ j := by
        push_cast at hj
        ring_nf at hj ⊢
        omega
      rw [iterUp_succ_apply]
      rw [iterButterfly_outside table inv L _ step j hL
        (Or.inr (by rw [hcast]; omega)) (L + 1) le_rfl]
      exact ihA j (by omega)
    · intro t ht
      by_cases htk : t < k
      · have hmul : 16 * (L : ℤ) * t + 16 * L ≤ 16 * (L : ℤ) * k := by
          have h16 : ((t : ℤ) + 1) ≤ (k : ℤ) := by exact_mod_cast htk
          nlinarith [Int.natCast_nonneg L]
        have hlt1 : 16 * (L : ℤ) * t + 1 < ((16 * L * k : ℕ) : ℤ) := by
          rw [hcast]; omega
        have hlt2 : 16 * (L : ℤ) * t + 8 * (L : ℤ) + 1 < ((16 * L * k : ℕ) : ℤ) := by
          rw [hcast]; omega
        have hihb := ihB t htk
        constructor
        · rw [iterUp_succ_apply]
          rw [iterButterfly_outside table inv L _ step _ hL
            (Or.inl hlt1) (L + 1) le_rfl]
          exact hihb.1
        · rw [iterUp_succ_apply]
          rw [iterButterfly_outside table inv L _ step _ hL
            (Or.inl hlt2) (L + 1) le_rfl]
          exact hihb.2
      · have htk' : t = k := by omega
        subst htk'
        have hpre : ∀ c : ℕ, c < 4 →
            iterUp (fun t => iterUp (rtButterfly table inv (16 * L)
              ((16 * L * t : ℕ) : ℤ) step) (L + 1)) t s
              (((16 * L * t : ℕ) : ℤ) + 4 * (L : ℤ) * c + 1) = 0 := by
          intro c hc
          rw [ihA _ (by
            rw [hcast]
            have hcc : 0 ≤ 4 * (L : ℤ) * c := by positivity
            linarith)]
          have hpos : ((16 * L * t : ℕ) : ℤ) + 4 * (L : ℤ) * c + 1 =
              4 * (L : ℤ) * (4 * t + c) + 1 := by push_cast; ring
          rw [hpos]
          exact hzero (4 * t + c) (by omega)
        rw [iterUp_succ_apply]
        have hh := iterButterfly_heads table inv L ((16 * L * t : ℕ) : ℤ) step
          (iterUp (fun t => iterUp (rtButterfly table inv (16 * L)
            ((16 * L * t : ℕ) : ℤ) step) (L + 1)) t s) hL ht0 ht1
          (by have h0 := hpre 0 (by omega)
              rw [show (((16 * L * t : ℕ) : ℤ) + 1) =
                ((16 * L * t : ℕ) : ℤ) + 4 * (L : ℤ) * 0 + 1 by ring]
              exact h0)
          (by have h1 := hpre 1 (by omega)
              rw [show (((16 * L * t : ℕ) : ℤ) + 4 * (L : ℤ) + 1) =
                ((16 * L * t : ℕ) : ℤ) + 4 * (L : ℤ) * 1 + 1 by ring]
              exact h1)
          (by have h2 := hpre 2 (by omega)
              rw [show (((16 * L * t : ℕ) : ℤ) + 4 * (L : ℤ) + 4 * (L : ℤ) + 1) =
                ((16 * L * t : ℕ) : ℤ) + 4 * (L : ℤ) * 2 + 1 by ring]
              exact h2)
          (by have h3 := hpre 3 (by omega)
              rw [show (((16 * L * t : ℕ) : ℤ) + 4 * (L : ℤ) + 4 * (L : ℤ) +
                  4 * (L : ℤ) + 1) =
                ((16 * L * t : ℕ) : ℤ) + 4 * (L : ℤ) * 3 + 1 by ring]
              exact h3)
          (L + 1) (by omega) le_rfl
        constructor
        · rw [show (16 * (L : ℤ) * t + 1) = ((16 * L * t : ℕ) : ℤ) + 1 by rw [hcast]]
          exact hh.1
        · rw [show (16 * (L : ℤ) * t + 8 * (L : ℤ) + 1) =
            ((16 * L * t : ℕ) : ℤ) + 4 * (L : ℤ) + 4 * (L : ℤ) + 1 by rw [hcast]; ring]
          exact hh.2

theorem rtStage_zero (csize : ℕ) (table : ℕ → ℝ) (inv : ℝ) (step : ℕ)
    (L B : ℕ) (hL : 1 ≤ L)
    (hstep : csize / step * 2 = 16 * L) (hcs : csize = 16 * L * B)
    (ht0 : table 0 = 1) (ht1 : table 1 = 0) (s : ℤ → ℝ)
    (hzero : ∀ u : ℕ, u < 4 * B → s (4 * (L : ℤ) * u + 1) = 0) :
    ∀ u : ℕ, u < 2 * B →
      rtStage csize table inv step s (8 * (L : ℤ) * u + 1) = 0 := by
  intro u hu
  have hdiv : csize / (16 * L) = B := by
    rw [hcs, Nat.mul_div_cancel_left _ (by omega)]
  have h16 : 16 * L / 16 = L := by omega
  simp only [rtStage, hstep, hdiv, h16]
  obtain ⟨hA2, hB2⟩ := rtStage_blocks table inv L B step s hL ht0 ht1 hzero B le_rfl
  by_cases he : u % 2 = 0
  · obtain ⟨t, rfl⟩ : ∃ t, u = 2 * t := ⟨u / 2, by omega⟩
    have hz := (hB2 t (by omega)).1
    rw [show (8 * (L : ℤ) * ((2 * t : ℕ) : ℤ) + 1) = 16 * (L : ℤ) * t + 1 by
      push_cast; ring]
    exact hz
  · obtain ⟨t, rfl⟩ : ∃ t, u = 2 * t + 1 := ⟨u / 2, by omega⟩
    have hz := (hB2 t (by omega)).2
    rw [show (8 * (L : ℤ) * ((2 * t + 1 : ℕ) : ℤ) + 1) =
      16 * (L : ℤ) * t + 8 * (L : ℤ) + 1 by push_cast; ring]
    exact hz

theorem rtStageLoop_zero (p : ℕ) (table : ℕ → ℝ) (inv : ℝ)
    (ht0 : table 0 = 1) (ht1 : table 1 = 0) :
    ∀ r : ℕ, 2 * r + 3 ≤ p → ∀ s : ℤ → ℝ,
      (∀ u : ℕ, u < 2 ^ (2 * r + 2) →
        s (((2 ^ (p - 2 * r - 1) : ℕ) : ℤ) * u + 1) = 0) →
      ∀ u : ℕ, u < 2 →
        rtStageLoop (2 ^ (p + 1)) table inv (2 ^ (2 * r + 1)) s
          (((2 ^ p : ℕ) : ℤ) * u + 1) = 0 := by
  intro r
  induction r with
  | zero =>
    intro hp s hz u hu
    rw [rtStageLoop, dif_pos (by norm_num)]
    rw [show (2 : ℕ) ^ (2 * 0 + 1) / 4 = 0 by norm_num]
    rw [rtStageLoop, dif_neg (by omega)]
    have hstep : 2 ^ (p + 1) / 2 ^ (2 * 0 + 1) * 2 = 16 * 2 ^ (p - 3) := by
      rw [Nat.pow_div (by omega) (by norm_num)]
      rw [show (16 : ℕ) = 2 ^ 4 from rfl, ← pow_succ, ← pow_add]
      congr 1
      omega
    have hcs : 2 ^ (p + 1) = 16 * 2 ^ (p - 3) * 1 := by
      rw [mul_one, show (16 : ℕ) = 2 ^ 4 from rfl, ← pow_add]
      congr 1
      omega
    have hzero : ∀ v : ℕ, v < 4 * 1 →
        s (4 * ((2 ^ (p - 3) : ℕ) : ℤ) * v + 1) = 0 := by
      intro v hv
      have he : 4 * ((2 ^ (p - 3) : ℕ) : ℤ) = ((2 ^ (p - 2 * 0 - 1) : ℕ) : ℤ) := by
        push_cast
        rw [show (4 : ℤ) = 2 ^ 2 from rfl, ← pow_add]
        congr 1
        omega
      rw [he]
      exact hz v (by omega)
    have hout := rtStage_zero (2 ^ (p + 1)) table inv (2 ^ (2 * 0 + 1))
      (2 ^ (p - 3)) 1 Nat.one_le_two_pow hstep hcs ht0 ht1 s hzero u (by omega)
    rw [show ((2 ^ p : ℕ) : ℤ) = 8 * ((2 ^ (p - 3) : ℕ) : ℤ) by
      push_cast
      rw [show (8 : ℤ) = 2 ^ 3 from rfl, ← pow_add]
      congr 1
      omega]
    exact hout
  | succ r ih =>
    intro hp s hz u hu
    rw [rtStageLoop, dif_pos (show 2 ≤ 2 ^ (2 * (r + 1) + 1) from
      Nat.one_lt_two_pow_iff.mpr (by omega))]
    rw [show (2 : ℕ) ^ (2 * (r + 1) + 1) / 4 = 2 ^ (2 * r + 1) by
      rw [show (4 : ℕ) = 2 ^ 2 from rfl, Nat.pow_div (by omega) (by norm_num)]
      congr 1]
    have hstep : 2 ^ (p + 1) / 2 ^ (2 * (r + 1) + 1) * 2 =
        16 * 2 ^ (p - 2 * r - 5) := by
      rw [Nat.pow_div (by omega) (by norm_num)]
      rw [show (16 : ℕ) = 2 ^ 4 from rfl, ← pow_succ, ← pow_add]
      congr 1
      omega
    have hcs : 2 ^ (p + 1) = 16 * 2 ^ (p - 2 * r - 5) * 2 ^ (2 * r + 2) := by
      rw [show (16 : ℕ) = 2 ^ 4 from rfl, ← pow_add, ← pow_add]
      congr 1
      omega
    have hzero : ∀ v : ℕ, v < 4 * 2 ^ (2 * r + 2) →
        s (4 * ((2 ^ (p - 2 * r - 5) : ℕ) : ℤ) * v + 1) = 0 := by
      intro v hv
      have he : 4 * ((2 ^ (p - 2 * r - 5) : ℕ) : ℤ) =
          ((2 ^ (p - 2 * (r + 1) - 1) : ℕ) : ℤ) := by
        push_cast
        rw [show (4 : ℤ) = 2 ^ 2 from rfl, ← pow_add]
        congr 1
        omega
      rw [he]
      refine hz v ?_
      have h4 : (4 : ℕ) * 2 ^ (2 * r + 2) = 2 ^ (2 * (r + 1) + 2) := by
        rw [show (4 : ℕ) = 2 ^ 2 from rfl, ← pow_add]
        congr 1
        omega
      omega
    have hstage := rtStage_zero (2 ^ (p + 1)) table inv (2 ^ (2 * (r + 1) + 1))
      (2 ^ (p - 2 * r - 5)) (2 ^ (2 * r + 2)) Nat.one_le_two_pow hstep hcs
      ht0 ht1 s hzero
    refine ih (by omega) _ ?_ u hu
    intro v hv
    have he2 : ((2 ^ (p - 2 * r - 1) : ℕ) : ℤ) * v =
        8 * ((2 ^ (p - 2 * r - 5) : ℕ) : ℤ) * ((2 * v : ℕ) : ℤ) + 0 := by
      push_cast
      rw [show (8 : ℤ) = 2 ^ 3 from rfl]
      rw [show (2 : ℤ) ^ 3 * 2 ^ (p - 2 * r - 5) * (2 * (v : ℤ)) =
        2 ^ 3 * 2 ^ (p - 2 * r - 5) * 2 * v by ring]
      rw [add_zero]
      congr 1
      rw [show (2 : ℤ) ^ 3 * 2 ^ (p - 2 * r - 5) * 2 =
          2 ^ (3 + (p - 2 * r - 5) + 1) by
        rw [pow_add, pow_add]
        ring]
      congr 1
      omega
    rw [show ((2 ^ (p - 2 * r - 1) : ℕ) : ℤ) * v + 1 =
        8 * ((2 ^ (p - 2 * r - 5) : ℕ) : ℤ) * ((2 * v : ℕ) : ℤ) + 1 by
      rw [add_zero] at he2
      rw [he2]]
    exact hstage (2 * v) (by omega)

theorem srt2_zero (data : ℤ → ℝ) (outOff off stp : ℤ) (s : ℤ → ℝ) :
    singleRealTransform2 data outOff off stp s (outOff + 1) = 0 := by
  have f1 : outOff + 1 ≠ outOff + 3 := by omega
  have f2 : outOff + 1 ≠ outOff + 2 := by omega
  simp [singleRealTransform2, upd, f1, f2]

theorem srt2_outside (data : ℤ → ℝ) (outOff off stp : ℤ) (s : ℤ → ℝ) (j : ℤ)
    (hj : j < outOff ∨ outOff + 4 ≤ j) :
    singleRealTransform2 data outOff off stp s j = s j := by
  have f0 : j ≠ outOff := by omega
  have f1 : j ≠ outOff + 1 := by omega
  have f2 : j ≠ outOff + 2 := by omega
  have f3 : j ≠ outOff + 3 := by omega
  simp [singleRealTransform2, upd, f0, f1, f2, f3]

theorem srt4_zero (data : ℤ → ℝ) (inv : ℝ) (outOff off stp : ℤ) (s : ℤ → ℝ)
    (j : ℤ) (hj : j = outOff + 1 ∨ j = outOff + 5) :
    singleRealTransform4 data inv outOff off stp s j = 0 := by
  have f2 : j ≠ outOff + 2 := by omega
  have f3 : j ≠ outOff + 3 := by omega
  have f4 : j ≠ outOff + 4 := by omega
  have f6 : j ≠ outOff + 6 := by omega
  have f7 : j ≠ outOff + 7 := by omega
  rcases hj with h | h
  · have f5 : j ≠ outOff + 5 := by omega
    subst h
    simp [singleRealTransform4, upd, f2, f3, f4, f5, f6, f7]
  · subst h
    simp [singleRealTransform4, upd, f2, f3, f4, f6, f7]

theorem srt4_outside (data : ℤ → ℝ) (inv : ℝ) (outOff off stp : ℤ) (s : ℤ → ℝ)
    (j : ℤ) (hj : j < outOff ∨ outOff + 8 ≤ j) :
    singleRealTransform4 data inv outOff off stp s j = s j := by
  have f0 : j ≠ outOff := by omega
  have f1 : j ≠ outOff + 1 := by omega
  have f2 : j ≠ outOff + 2 := by omega
  have f3 : j ≠ outOff + 3 := by omega
  have f4 : j ≠ outOff + 4 := by omega
  have f5 : j ≠ outOff + 5 := by omega
  have f6 : j ≠ outOff + 6 := by omega
  have f7 : j ≠ outOff + 7 := by omega
  simp [singleRealTransform4, upd, f0, f1, f2, f3, f4, f5, f6, f7]

theorem iterSrt2_zero (data : ℤ → ℝ) (off : ℕ → ℤ) (stp : ℤ) (s : ℤ → ℝ) :
    ∀ n : ℕ, ∀ u : ℕ, u < n →
      iterUp (fun t => singleRealTransform2 data ((4 : ℤ) * t) (off t) stp) n s
        ((4 : ℤ) * u + 1) = 0 := by
  intro n
  induction n with
  | zero => intro u hu; omega
  | succ k ih =>
    intro u hu
    rw [iterUp_succ_apply]
    by_cases huk : u = k
    · subst huk
      exact srt2_zero data _ _ _ _
    · rw [srt2_outside data _ _ _ _ _ (Or.inl (by
        have : (u : ℤ) + 1 ≤ (k : ℤ) := by exact_mod_cast by omega
        omega))]
      exact ih u (by omega)

theorem iterSrt4_zero (data : ℤ → ℝ) (inv : ℝ) (off : ℕ → ℤ) (stp : ℤ)
    (s : ℤ → ℝ) :
    ∀ n : ℕ, ∀ u : ℕ, u / 2 < n →
      iterUp (fun t => singleRealTransform4 data inv ((8 : ℤ) * t) (off t) stp) n s
        ((4 : ℤ) * u + 1) = 0 := by
  intro n
  induction n with
  | zero => intro u hu; omega
  | succ k ih =>
    intro u hu
    rw [iterUp_succ_apply]
    by_cases huk : u / 2 = k
    · by_cases hpar : u % 2 = 0
      · refine srt4_zero data inv _ _ _ _ _ (Or.inl ?_)
        have hu2 : u = 2 * k := by omega
        subst hu2
        push_cast
        ring
      · refine srt4_zero data inv _ _ _ _ _ (Or.inr ?_)
        have hu2 : u = 2 * k + 1 := by omega
        subst hu2
        push_cast
        ring
    · rw [srt4_outside data inv _ _ _ _ _ (Or.inl (by
        have h1 : u + 1 ≤ 2 * k := by omega
        have h2 : (u : ℤ) + 1 ≤ 2 * (k : ℤ) := by exact_mod_cast h1
        omega))]
      exact ih u (by omega)

theorem rtInitialPass_zero (p : ℕ) (hp : 1 ≤ p) (data : ℤ → ℝ) (inv : ℝ)
    (out0 : ℤ → ℝ) :
    ∀ u : ℕ, u < 2 ^ (p - 1) →
      rtInitialPass (2 ^ p) (2 ^ (p + 1)) data inv out0 ((4 : ℤ) * u + 1) = 0 := by
  intro u hu
  have hclog : p2power (2 ^ p) = p := Nat.clog_pow 2 p (by norm_num)
  by_cases hpar : p % 2 = 0
  · have hp2 : 2 ≤ p := by omega
    have hwidth : p2width (2 ^ p) = p - 1 := by
      rw [p2width, hclog, if_pos hpar]
    have hlen : 2 ^ (p + 1) / 2 ^ (p - 1) * 2 = 8 := by
      rw [Nat.pow_div (by omega) (by norm_num)]
      rw [show p + 1 - (p - 1) = 2 by omega]
    have hcnt : 2 ^ (p + 1) / 8 = 2 ^ (p - 2) := by
      rw [show (8 : ℕ) = 2 ^ 3 from rfl, Nat.pow_div (by omega) (by norm_num)]
      congr 1
    simp only [rtInitialPass, hwidth, hlen, hcnt]
    rw [if_neg (by norm_num)]
    refine iterSrt4_zero data inv _ _ out0 (2 ^ (p - 2)) u ?_
    have hpow : 2 ^ (p - 1) = 2 * 2 ^ (p - 2) := by
      rw [← pow_succ']
      congr 1
      omega
    omega
  · have hwidth : p2width (2 ^ p) = p := by
      rw [p2width, hclog, if_neg hpar]
    have hlen : 2 ^ (p + 1) / 2 ^ p * 2 = 4 := by
      rw [Nat.pow_div (by omega) (by norm_num)]
      rw [show p + 1 - p = 1 by omega]
    have hcnt : 2 ^ (p + 1) / 4 = 2 ^ (p - 1) := by
      rw [show (4 : ℕ) = 2 ^ 2 from rfl, Nat.pow_div (by omega) (by norm_num)]
      congr 1
    simp only [rtInitialPass, hwidth, hlen, hcnt]
    rw [if_pos trivial]
    exact iterSrt2_zero data _ _ out0 (2 ^ (p - 1)) u hu

theorem iterMirror_eval (csize : ℕ) (s : ℤ → ℝ) :
    ∀ n : ℕ, 4 * n + 4 ≤ csize →
      (∀ j : ℤ, j < (csize : ℤ) - 2 * n →
        iterUp (fun m s0 =>
          upd (upd s0 ((csize : ℤ) - 2 * ((m : ℤ) + 1)) (s0 (2 * ((m : ℤ) + 1))))
            ((csize : ℤ) - 2 * ((m : ℤ) + 1) + 1) (-s0 (2 * ((m : ℤ) + 1) + 1)))
          n s j = s j) ∧
      (∀ u : ℕ, 1 ≤ u → u ≤ n →
        iterUp (fun m s0 =>
          upd (upd s0 ((csize : ℤ) - 2 * ((m : ℤ) + 1)) (s0 (2 * ((m : ℤ) + 1))))
            ((csize : ℤ) - 2 * ((m : ℤ) + 1) + 1) (-s0 (2 * ((m : ℤ) + 1) + 1)))
          n s ((csize : ℤ) - 2 * u) = s (2 * u) ∧
        iterUp (fun m s0 =>
          upd (upd s0 ((csize : ℤ) - 2 * ((m : ℤ) + 1)) (s0 (2 * ((m : ℤ) + 1))))
            ((csize : ℤ) - 2 * ((m : ℤ) + 1) + 1) (-s0 (2 * ((m : ℤ) + 1) + 1)))
          n s ((csize : ℤ) - 2 * u + 1) = -s (2 * u + 1)) := by
  intro n
  induction n with
  | zero =>
    intro _
    exact ⟨fun j _ => rfl,
      fun u h1 h2 => absurd (h1.trans h2) (Nat.not_succ_le_zero 0)⟩
  | succ k ih =>
    intro hb
    obtain ⟨ihA, ihB⟩ := ih (by omega)
    constructor
    · intro j hj
      rw [iterUp_succ_apply]
      have f1 : j ≠ (csize : ℤ) - 2 * ((k : ℤ) + 1) := by push_cast at hj; omega
      have f2 : j ≠ (csize : ℤ) - 2 * ((k : ℤ) + 1) + 1 := by push_cast at hj; omega
      simp only [upd, f1, f2, if_false]
      exact ihA j (by push_cast at hj ⊢; omega)
    · intro u h1 h2
      by_cases huk : u = k + 1
      · subst huk
        constructor
        · push_cast
          rw [iterUp_succ_apply]
          have g1 : (csize : ℤ) - 2 * ((k : ℤ) + 1) ≠
              (csize : ℤ) - 2 * ((k : ℤ) + 1) + 1 := by omega
          simp only [upd, g1, if_false, if_true]
          exact ihA (2 * ((k : ℤ) + 1)) (by omega)
        · push_cast
          rw [iterUp_succ_apply]
          simp only [upd, if_true]
          rw [ihA (2 * ((k : ℤ) + 1) + 1) (by omega)]
      · have huk' : u ≤ k := by omega
        have p1 : (csize : ℤ) - 2 * (u : ℤ) ≠ (csize : ℤ) - 2 * ((k : ℤ) + 1) := by
          have : (u : ℤ) ≤ (k : ℤ) := by exact_mod_cast huk'
          omega
        have p2 : (csize : ℤ) - 2 * (u : ℤ) ≠
            (csize : ℤ) - 2 * ((k : ℤ) + 1) + 1 := by omega
        have p3 : (csize : ℤ) - 2 * (u : ℤ) + 1 ≠
            (csize : ℤ) - 2 * ((k : ℤ) + 1) := by
          have : (u : ℤ) ≤ (k : ℤ) := by exact_mod_cast huk'
          omega
        have p4 : (csize : ℤ) - 2 * (u : ℤ) + 1 ≠
            (csize : ℤ) - 2 * ((k : ℤ) + 1) + 1 := by
          have : (u : ℤ) ≤ (k : ℤ) := by exact_mod_cast huk'
          omega
        obtain ⟨ib1, ib2⟩ := ihB u h1 huk'
        constructor
        · rw [iterUp_succ_apply]
          simp only [upd, p1, p2, if_false]
          exact ib1
        · rw [iterUp_succ_apply]
          simp only [upd, p3, p4, if_false]
          exact ib2

theorem p2table_zero (n : ℕ) : p2table n 0 = 1 := by
  simp [p2table]

theorem p2table_one (n : ℕ) : p2table n 1 = 0 := by
  simp [p2table]

theorem srt2_zero3 (data : ℤ → ℝ) (outOff off stp : ℤ) (s : ℤ → ℝ) :
    singleRealTransform2 data outOff off stp s (outOff + 3) = 0 := by
  simp [singleRealTransform2, upd]

theorem st_zeros (p : ℕ) (hp : 1 ≤ p) (data out0 : ℤ → ℝ) :
    ∀ u : ℕ, u < 2 →
      rtStageLoop (2 ^ (p + 1)) (p2table (2 ^ p)) 1 (2 ^ p2width (2 ^ p) / 4)
        (rtInitialPass (2 ^ p) (2 ^ (p + 1)) data 1 out0)
        (((2 ^ p : ℕ) : ℤ) * u + 1) = 0 := by
  have hclog : p2power (2 ^ p) = p := Nat.clog_pow 2 p (by norm_num)
  by_cases hp3 : 3 ≤ p
  · -- stage loop runs; split on parity for the starting step
    by_cases hpar : p % 2 = 0
    · have hwidth : p2width (2 ^ p) = p - 1 := by
        rw [p2width, hclog, if_pos hpar]
      have hstart : 2 ^ (p - 1) / 4 = 2 ^ (2 * ((p - 4) / 2) + 1) := by
        rw [show (4 : ℕ) = 2 ^ 2 from rfl, Nat.pow_div (by omega) (by norm_num)]
        congr 1
        omega
      rw [hwidth, hstart]
      refine rtStageLoop_zero p (p2table (2 ^ p)) 1 (p2table_zero _) (p2table_one _)
        ((p - 4) / 2) (by omega) _ ?_
      intro v hv
      have hsp : ((2 ^ (p - 2 * ((p - 4) / 2) - 1) : ℕ) : ℤ) * (v : ℤ) =
          (4 : ℤ) * ((2 * v : ℕ) : ℤ) := by
        push_cast
        rw [show p - 2 * ((p - 4) / 2) - 1 = 3 by omega]
        ring
      rw [hsp]
      refine rtInitialPass_zero p (by omega) data 1 out0 (2 * v) ?_
      have hpow : (2 : ℕ) ^ (p - 1) = 2 * 2 ^ (p - 2) := by
        rw [← pow_succ']
        congr 1
        omega
      have hv2 : v < 2 ^ (p - 2) := by
        have h42 : (2 : ℕ) ^ (2 * ((p - 4) / 2) + 2) = 2 ^ (p - 2) := by
          congr 1
          omega
        omega
      omega
    · have hwidth : p2width (2 ^ p) = p := by
        rw [p2width, hclog, if_neg hpar]
      have hstart : 2 ^ p / 4 = 2 ^ (2 * ((p - 3) / 2) + 1) := by
        rw [show (4 : ℕ) = 2 ^ 2 from rfl, Nat.pow_div (by omega) (by norm_num)]
        congr 1
        omega
      rw [hwidth, hstart]
      refine rtStageLoop_zero p (p2table (2 ^ p)) 1 (p2table_zero _) (p2table_one _)
        ((p - 3) / 2) (by omega) _ ?_
      intro v hv
      have hsp : ((2 ^ (p - 2 * ((p - 3) / 2) - 1) : ℕ) : ℤ) * (v : ℤ) =
          (4 : ℤ) * (v : ℤ) := by
        push_cast
        rw [show p - 2 * ((p - 3) / 2) - 1 = 2 by omega]
        ring
      rw [hsp]
      refine rtInitialPass_zero p (by omega) data 1 out0 v ?_
      have h32 : (2 : ℕ) ^ (2 * ((p - 3) / 2) + 2) = 2 ^ (p - 1) := by
        congr 1
        omega
      omega
  · -- p = 1 or p = 2: the stage loop is the identity
    have hstep0 : 2 ^ p2width (2 ^ p) / 4 = 0 := by
      have hw : p2width (2 ^ p) = 1 := by
        rw [p2width, hclog]
        interval_cases p <;> simp
      rw [hw]
      norm_num
    rw [hstep0, rtStageLoop, dif_neg (by omega)]
    intro u hu
    by_cases hp1 : p = 1
    · subst hp1
      interval_cases u
      · have h0 := rtInitialPass_zero 1 le_rfl data 1 out0 0 (by norm_num)
        rw [show ((2 ^ 1 : ℕ) : ℤ) * ((0 : ℕ) : ℤ) + 1 = (4 : ℤ) * ((0 : ℕ) : ℤ) + 1 by
          norm_num]
        exact h0
      · -- position 3 comes from the radix-2 kernel's last store
        have hclog1 : p2power (2 ^ 1) = 1 := hclog
        have hw1 : p2width (2 ^ 1) = 1 := by
          rw [p2width, hclog1]
          norm_num
        simp only [rtInitialPass, hw1]
        rw [if_pos (by norm_num)]
        rw [show (2 : ℕ) ^ (1 + 1) / 4 = 1 by norm_num]
        rw [iterUp_succ_apply]
        have h3 := srt2_zero3 data ((4 : ℤ) * ((0 : ℕ) : ℤ))
          (jsShrU32 (bitrevEntry 1 0) 1) ((2 ^ 1 / 2 : ℕ) : ℤ)
          (iterUp (fun t => singleRealTransform2 data ((4 : ℤ) * t)
            (jsShrU32 (bitrevEntry 1 t) 1) ((2 ^ 1 / 2 : ℕ) : ℤ)) 0 out0)
        rw [show ((2 ^ 1 : ℕ) : ℤ) * ((1 : ℕ) : ℤ) + 1 =
          (4 : ℤ) * ((0 : ℕ) : ℤ) + 3 by norm_num]
        exact h3
    · have hp2 : p = 2 := by omega
      subst hp2
      have hz := rtInitialPass_zero 2 (by norm_num) data 1 out0 u (by
        simpa using hu)
      rw [show ((2 ^ 2 : ℕ) : ℤ) * (u : ℤ) + 1 = (4 : ℤ) * (u : ℤ) + 1 by
        push_cast; ring]
      exact hz

theorem p2Real_hermitian_aux (p : ℕ) (hp : 1 ≤ p) (out0 data : ℤ → ℝ)
    (k : ℕ) (hk1 : 1 ≤ k) (hk2 : k ≤ 2 ^ p - 1) :
    p2RealTransformRaw (2 ^ p) out0 data 1
        (2 * (((2 ^ p : ℕ) : ℤ) - k)) =
      p2RealTransformRaw (2 ^ p) out0 data 1 (2 * k) ∧
    p2RealTransformRaw (2 ^ p) out0 data 1
        (2 * (((2 ^ p : ℕ) : ℤ) - k) + 1) =
      -p2RealTransformRaw (2 ^ p) out0 data 1 (2 * k + 1) := by
  have h2N : 2 * 2 ^ p = 2 ^ (p + 1) := (pow_succ' 2 p).symm
  have hNN : (2 : ℕ) ^ p = 2 * 2 ^ (p - 1) := by
    rw [← pow_succ']
    congr 1
    omega
  have hdiv4 : 2 ^ (p + 1) / 4 = 2 ^ (p - 1) := by
    rw [show (4 : ℕ) = 2 ^ 2 from rfl, Nat.pow_div (by omega) (by norm_num)]
    congr 1
  have hcz : ((2 ^ (p + 1) : ℕ) : ℤ) = 2 * ((2 ^ p : ℕ) : ℤ) := by push_cast; ring
  have hNz : ((2 ^ p : ℕ) : ℤ) = 2 * ((2 ^ (p - 1) : ℕ) : ℤ) := by
    exact_mod_cast hNN
  have hsub1 : ((2 ^ (p - 1) - 1 : ℕ) : ℤ) = ((2 ^ (p - 1) : ℕ) : ℤ) - 1 :=
    Nat.cast_sub Nat.one_le_two_pow
  have hkz : (1 : ℤ) ≤ (k : ℤ) := by exact_mod_cast hk1
  have hk2z : (k : ℤ) ≤ ((2 ^ p : ℕ) : ℤ) - 1 := by
    have h := (Nat.cast_le (α := ℤ)).mpr hk2
    rw [Nat.cast_sub Nat.one_le_two_pow] at h
    simpa using h
  simp only [p2RealTransformRaw, h2N, rtMirror, hdiv4]
  obtain ⟨mA, mB⟩ := iterMirror_eval (2 ^ (p + 1))
    (rtStageLoop (2 ^ (p + 1)) (p2table (2 ^ p)) 1 (2 ^ p2width (2 ^ p) / 4)
      (rtInitialPass (2 ^ p) (2 ^ (p + 1)) data 1 out0))
    (2 ^ (p - 1) - 1) (by omega)
  have hstN1 : rtStageLoop (2 ^ (p + 1)) (p2table (2 ^ p)) 1
      (2 ^ p2width (2 ^ p) / 4)
      (rtInitialPass (2 ^ p) (2 ^ (p + 1)) data 1 out0)
      (((2 ^ p : ℕ) : ℤ) + 1) = 0 := by
    have h := st_zeros p hp data out0 1 (by norm_num)
    simpa using h
  rcases lt_trichotomy k (2 ^ (p - 1)) with hlt | heq | hgt
  · -- k below the midpoint: the mirror pass wrote bins N - k from bins k
    have hltz : (k : ℤ) < ((2 ^ (p - 1) : ℕ) : ℤ) := by exact_mod_cast hlt
    have hb := mB k hk1 (by omega)
    constructor
    · rw [show (2 : ℤ) * (((2 ^ p : ℕ) : ℤ) - (k : ℤ)) =
        ((2 ^ (p + 1) : ℕ) : ℤ) - 2 * (k : ℤ) by rw [hcz]; ring]
      rw [hb.1]
      rw [mA (2 * (k : ℤ)) (by rw [hsub1]; omega)]
    · rw [show (2 : ℤ) * (((2 ^ p : ℕ) : ℤ) - (k : ℤ)) + 1 =
        ((2 ^ (p + 1) : ℕ) : ℤ) - 2 * (k : ℤ) + 1 by rw [hcz]; ring]
      rw [hb.2]
      rw [mA (2 * (k : ℤ) + 1) (by rw [hsub1]; omega)]
  · -- the midpoint bin: its imaginary part is zero after the stage loop
    have hke : (k : ℤ) = ((2 ^ (p - 1) : ℕ) : ℤ) := by exact_mod_cast heq
    constructor
    · rw [show (2 : ℤ) * (((2 ^ p : ℕ) : ℤ) - (k : ℤ)) = 2 * (k : ℤ) by
        rw [hke]; omega]
    · rw [show (2 : ℤ) * (((2 ^ p : ℕ) : ℤ) - (k : ℤ)) + 1 =
          ((2 ^ p : ℕ) : ℤ) + 1 by rw [hke]; omega,
        show (2 : ℤ) * (k : ℤ) + 1 = ((2 ^ p : ℕ) : ℤ) + 1 by rw [hke]; omega]
      rw [mA (((2 ^ p : ℕ) : ℤ) + 1) (by rw [hsub1]; omega)]
      rw [hstN1]
      norm_num
  · -- k above the midpoint: apply the mirror equation at N - k
    have hgtz : ((2 ^ (p - 1) : ℕ) : ℤ) < (k : ℤ) := by exact_mod_cast hgt
    have hu1 : 1 ≤ 2 ^ p - k := by omega
    have hu2 : 2 ^ p - k ≤ 2 ^ (p - 1) - 1 := by omega
    have hcastu : ((2 ^ p - k : ℕ) : ℤ) = ((2 ^ p : ℕ) : ℤ) - (k : ℤ) :=
      Nat.cast_sub (by omega)
    have hb := mB (2 ^ p - k) hu1 hu2
    constructor
    · rw [mA (2 * (((2 ^ p : ℕ) : ℤ) - (k : ℤ))) (by rw [hsub1]; omega)]
      rw [show (2 : ℤ) * (k : ℤ) =
        ((2 ^ (p + 1) : ℕ) : ℤ) - 2 * ((2 ^ p - k : ℕ) : ℤ) by
          rw [hcastu, hcz]; ring]
      rw [hb.1, hcastu]
    · rw [mA (2 * (((2 ^ p : ℕ) : ℤ) - (k : ℤ)) + 1) (by rw [hsub1]; omega)]
      rw [show (2 : ℤ) * (k : ℤ) + 1 =
        ((2 ^ (p + 1) : ℕ) : ℤ) - 2 * ((2 ^ p - k : ℕ) : ℤ) + 1 by
          rw [hcastu, hcz]; ring]
      rw [hb.2, hcastu]
      ring

/-- Claim C7: for every power-of-two FFT plan of size N = 2^p and every real
input, the output of realTransform satisfies Hermitian symmetry: for every k
with 1 <= k <= N - 1, bin N - k is the complex conjugate of bin k (the real
part at index 2(N-k) equals the real part at index 2k, and the imaginary part
at index 2(N-k)+1 is the negation of the one at index 2k+1); in the exact
real-arithmetic embedding the equality is exact. -/
theorem C7_hermitian (p : ℕ) (hp : 1 ≤ p) (out0 data : ℤ → ℝ) (out : ℤ → ℝ)
    (hout : p2realTransform (2 ^ p) false out0 data = .ok out)
    (k : ℕ) (hk1 : 1 ≤ k) (hk2 : k ≤ 2 ^ p - 1) :
    out (2 * (((2 ^ p : ℕ) : ℤ) - k)) = out (2 * k) ∧
    out (2 * (((2 ^ p : ℕ) : ℤ) - k) + 1) = -out (2 * k + 1) := by
  have hraw : p2RealTransformRaw (2 ^ p) out0 data 1 = out := by
    have h := hout
    simp only [p2realTransform, Bool.false_eq_true, if_false] at h
    exact Except.ok.inj h
  rw [← hraw]
  exact p2Real_hermitian_aux p hp out0 data k hk1 hk2

theorem C7_hermitian_witness :
    (p2RealTransformRaw (2 ^ 1) (fun _ => 0) (fun _ => 0) 1)
        (2 * (((2 ^ 1 : ℕ) : ℤ) - (1 : ℕ))) =
      (p2RealTransformRaw (2 ^ 1) (fun _ => 0) (fun _ => 0) 1) (2 * (1 : ℕ)) ∧
    (p2RealTransformRaw (2 ^ 1) (fun _ => 0) (fun _ => 0) 1)
        (2 * (((2 ^ 1 : ℕ) : ℤ) - (1 : ℕ)) + 1) =
      -(p2RealTransformRaw (2 ^ 1) (fun _ => 0) (fun _ => 0) 1)
        (2 * (1 : ℕ) + 1) :=
  C7_hermitian 1 le_rfl (fun _ => 0) (fun _ => 0)
    (p2RealTransformRaw (2 ^ 1) (fun _ => 0) (fun _ => 0) 1)
    (by simp [p2realTransform]) 1 le_rfl (by norm_num)

end RealTransformHermitian
